import Mathlib

/-!
Verification of the glacier_clustering data-merge pipeline
(`src/glacier_clustering/pipelines/merge_data/nodes.py`).

Tables are embedded as lists of rows; a pandas `NaN` cell is `none`.
Row types keep only the columns the functions under scrutiny touch; a
row's `feats`/`vals` list holds the row's values at the relevant value
columns, in column order.
-/

namespace GlacierClustering

/-- A row of the merged table as consumed by `to_timeseries`: the entity
identifier `WGMS_ID`, the `YEAR`, and the row's values at the configured
feature columns (in the order of `parameters["features"]`; `none` models a
missing (NaN) cell). -/
structure MRow where
  wgms_id : Int
  year : Int
  feats : List (Option Int)
deriving DecidableEq, Repr, Inhabited

/-- Line 158, `merged_data.dropna(subset=features, how='all')`: keep the rows
having at least one non-missing feature value. -/
def dropnaFeats (m : List MRow) : List MRow :=
  m.filter (fun r => r.feats.any (fun v => v.isSome))

/-- The distinct key values of the table in ascending order: pandas
`groupby(key)` iterates its groups sorted by key. -/
def sortedKeysBy (key : MRow → Int) (m : List MRow) : List Int :=
  List.insertionSort (· ≤ ·) (m.map key).dedup

/-- Lines 159-160, `pd.concat(g for _, g in m.groupby(key) if len(g) > 1)`:
concatenate, in ascending key order, those groups that have more than one
row (each group keeps its rows in input order). -/
def keepBigGroups (key : MRow → Int) (m : List MRow) : List MRow :=
  (sortedKeysBy key m).flatMap
    (fun k =>
      let g := m.filter (fun r => key r == k)
      if 1 < g.length then g else [])

/-- Line 159: drop every entity (WGMS_ID group) with at most one row. -/
def entityFilter (m : List MRow) : List MRow :=
  keepBigGroups (fun r => r.wgms_id) m

/-- Line 160: drop every YEAR group with at most one row. -/
def yearFilter (m : List MRow) : List MRow :=
  keepBigGroups (fun r => r.year) m

/-- The rows surviving the reshaper's three filters (lines 158-160). -/
def survivors (m : List MRow) : List MRow :=
  yearFilter (entityFilter (dropnaFeats m))

/-- The row at position `j` (a dummy default row out of range). -/
def rowAt (s : List MRow) (j : Nat) : MRow := s.getD j default

/-- The entity identifier of the row at position `j`. -/
def idAt (s : List MRow) (j : Nat) : Int := (rowAt s j).wgms_id

/-- The distinct values of a list in first-seen order: the `uniques` of
`pd.factorize`. -/
def firstSeen : List Int → List Int
  | [] => []
  | a :: l => a :: firstSeen (l.filter (fun b => b != a))
termination_by l => l.length
decreasing_by
  exact Nat.lt_succ_of_le (List.length_filter_le _ _)

/-- The distinct entity identifiers of the table in first-seen order. -/
def uids (s : List MRow) : List Int := firstSeen (s.map (fun r => r.wgms_id))

/-- Line 165, `x = merged_data.WGMS_ID.factorize()[0]`: the dense 0-based
code of row `j`'s entity identifier, in first-seen order. -/
def rankOf (s : List MRow) (j : Nat) : Nat := (uids s).indexOf (idAt s j)

/-- Line 166, `y = merged_data.groupby(x).cumcount().values`: the number of
earlier rows sharing row `j`'s entity identifier. -/
def cumcountOf (s : List MRow) (j : Nat) : Nat :=
  ((List.range j).filter (fun k => idAt s k == idAt s j)).length

/-- The list of positions of the rows of entity `e`, in increasing order. -/
def occs (s : List MRow) (e : Int) : List Nat :=
  (List.range s.length).filter (fun k => idAt s k == e)

/-- The number of rows of entity `e` in the table. -/
def countE (s : List MRow) (e : Int) : Nat :=
  (s.filter (fun r => r.wgms_id == e)).length

/-- Maximum of a list of naturals (0 for the empty list, like numpy only
applied to nonempty arrays here). -/
def natMax (l : List Nat) : Nat := l.foldr max 0

/-- `x.max()` of line 168. -/
def xMax (s : List MRow) : Nat := natMax ((List.range s.length).map (rankOf s))

/-- `y.max()` of line 168. -/
def yMax (s : List MRow) : Nat := natMax ((List.range s.length).map (cumcountOf s))

/-- The row positions that write tensor cell `(i, t)` in the scatter
`out[x, y] = vals` of line 170. -/
def writers (s : List MRow) (i t : Nat) : List Nat :=
  (List.range s.length).filter (fun j => rankOf s j == i && cumcountOf s j == t)

/-- The value of tensor cell `(i, t, f)` after `out = np.full(out_shp, np.nan)`
followed by `out[x, y] = vals` (lines 169-170): the cell keeps NaN unless some
row writes it; with numpy fancy assignment the last writing row wins. -/
def cellVal (s : List MRow) (i t f : Nat) : Option Int :=
  match (writers s i t).getLast? with
  | some j => (rowAt s j).feats.getD f none
  | none => none

/-- Lines 168-170: the scattered array of shape
`(x.max() + 1, y.max() + 1, F)` where `F` is the number of configured
feature columns. -/
def outTensor (s : List MRow) (numFeats : Nat) : List (List (List (Option Int))) :=
  (List.range (xMax s + 1)).map (fun i =>
    (List.range (yMax s + 1)).map (fun t =>
      (List.range numFeats).map (fun f => cellVal s i t f)))

/-- `tslearn.utils.to_time_series_dataset` (line 172): pad every series with
missing-value rows up to the length of the longest one.  On the equal-length
series produced by the scatter above it returns its input unchanged. -/
def to_time_series_dataset (ds : List (List (List (Option Int)))) :
    List (List (List (Option Int))) :=
  ds.map (fun srs =>
    srs ++ List.replicate (natMax (ds.map List.length) - srs.length)
      (List.replicate (((ds.headD []).headD []).length) none))

/-- The exception pandas raises when `pd.concat` receives an empty iterable
(as the generator comprehensions of lines 159-160 do when no group
qualifies). -/
inductive PandasError where
  | valueErrorNoObjectsToConcatenate
deriving DecidableEq, Repr

/-- Lines 139-179, `to_timeseries(merged_data, parameters)`: filter the
merged table (dropna over the feature columns, entity groups of more than one
row, year groups of more than one row), scatter the surviving rows into a
padded rank-3 array, and return it together with the reference table
(`set_index(["WGMS_ID", "YEAR"])` re-keys the surviving rows without changing
their content or order, so the reference table is the surviving row list
itself).  When a filter leaves no qualifying group, `pd.concat` raises
`ValueError: No objects to concatenate`. -/
def to_timeseries (m : List MRow) (numFeats : Nat) :
    Except PandasError (List (List (List (Option Int))) × List MRow) :=
  let s1 := dropnaFeats m
  let s2 := entityFilter s1
  if s2.isEmpty then .error .valueErrorNoObjectsToConcatenate
  else
    let s3 := yearFilter s2
    if s3.isEmpty then .error .valueErrorNoObjectsToConcatenate
    else .ok (to_time_series_dataset (outTensor s3 numFeats), s3)

/-- The contents of the caller's `merged_data` object after `to_timeseries`
returns: line 158 calls `dropna(..., inplace=True)` on the argument itself,
mutating it in place; every later line rebinds the local name only, leaving
the caller's object equal to the dropna result. -/
def to_timeseries_input_after (m : List MRow) : List MRow := dropnaFeats m

/-- The number of distinct entity identifiers appearing in a table. -/
def distinctIds (s : List MRow) : Nat :=
  (s.map (fun r => r.wgms_id)).toFinset.card

/-- The maximum per-entity row count of a table. -/
def maxCountE (s : List MRow) : Nat := natMax ((uids s).map (countE s))

/-! ### Generic list lemmas -/

theorem mem_firstSeen (a : Int) (l : List Int) : a ∈ firstSeen l ↔ a ∈ l := by
  induction l using firstSeen.induct with
  | case1 => simp [firstSeen]
  | case2 b l ih =>
    rw [firstSeen]
    by_cases hab : a = b
    · subst hab; simp
    · simp only [List.mem_cons, ih, List.mem_filter, hab, false_or, bne_iff_ne, ne_eq,
        decide_eq_true_eq]
      constructor
      · rintro ⟨h, _⟩; exact h
      · intro h; exact ⟨h, by simp [hab]⟩

theorem nodup_firstSeen (l : List Int) : (firstSeen l).Nodup := by
  induction l using firstSeen.induct with
  | case1 => simp [firstSeen]
  | case2 b l ih =>
    rw [firstSeen]
    refine List.Nodup.cons ?_ ih
    intro hmem
    rw [mem_firstSeen] at hmem
    rcases List.mem_filter.1 hmem with ⟨-, hpred⟩
    simp at hpred

theorem toFinset_firstSeen (l : List Int) : (firstSeen l).toFinset = l.toFinset := by
  ext a
  simp [mem_firstSeen]

theorem length_firstSeen (l : List Int) : (firstSeen l).length = l.toFinset.card := by
  rw [← toFinset_firstSeen, List.toFinset_card_of_nodup (nodup_firstSeen l)]

theorem le_natMax {x : Nat} {l : List Nat} (h : x ∈ l) : x ≤ natMax l := by
  induction l with
  | nil => cases h
  | cons a l ih =>
    rcases List.mem_cons.1 h with h | h
    · subst h; exact Nat.le_max_left _ _
    · exact le_trans (ih h) (Nat.le_max_right _ _)

theorem natMax_mem {l : List Nat} (h : l ≠ []) : natMax l ∈ l := by
  induction l with
  | nil => exact absurd rfl h
  | cons a l ih =>
    rcases Nat.eq_zero_or_pos l.length with hl | hl
    · rw [List.length_eq_zero] at hl
      subst hl
      simp [natMax]
    · have hlne : l ≠ [] := List.ne_nil_of_length_pos hl
      show max a (natMax l) ∈ a :: l
      rcases max_choice a (natMax l) with h1 | h1 <;> rw [h1]
      · exact List.mem_cons_self _ _
      · exact List.mem_cons_of_mem _ (ih hlne)

/-- A nodup list all of whose elements equal `a`, with `a` a member, is `[a]`. -/
theorem nodup_all_eq_singleton {α : Type} {l : List α} {a : α} (hn : l.Nodup)
    (hmem : a ∈ l) (hall : ∀ x ∈ l, x = a) : l = [a] := by
  cases l with
  | nil => cases hmem
  | cons b l =>
    have hb : b = a := hall b (List.mem_cons_self _ _)
    subst hb
    cases l with
    | nil => rfl
    | cons c l =>
      have hc : c = b := hall c (List.mem_cons_of_mem _ (List.mem_cons_self _ _))
      subst hc
      simp at hn

/-- Two distinct members force length at least two. -/
theorem one_lt_length_of_two_mem {α : Type} {l : List α} {a b : α} (ha : a ∈ l)
    (hb : b ∈ l) (hab : a ≠ b) : 1 < l.length := by
  cases l with
  | nil => cases ha
  | cons x l =>
    cases l with
    | nil =>
      simp only [List.mem_singleton] at ha hb
      exact absurd (ha.trans hb.symm) hab
    | cons y l => simp [Nat.lt_add_of_pos_left]

/-- In a strictly increasing list, the elements below the `i`-th one are
exactly the first `i`. -/
theorem sorted_filter_lt_get {l : List Nat} (hs : l.Pairwise (· < ·)) {i : Nat} {x : Nat}
    (hget : l.get? i = some x) : (l.filter (fun y => y < x)).length = i := by
  induction l generalizing i with
  | nil => simp at hget
  | cons a l ih =>
    rcases List.pairwise_cons.1 hs with ⟨ha, hl⟩
    cases i with
    | zero =>
      simp only [List.get?_cons_zero, Option.some.injEq] at hget
      subst hget
      have : ∀ y ∈ a :: l, ¬ (decide (y < a) = true) := by
        intro y hy
        simp only [decide_eq_true_eq]
        rcases List.mem_cons.1 hy with hy | hy
        · subst hy; exact lt_irrefl _
        · exact Nat.not_lt.2 (Nat.le_of_lt (ha y hy))
      rw [List.filter_eq_nil_iff.2 this]
      rfl
    | succ i =>
      simp only [List.get?_cons_succ] at hget
      have hxl : x ∈ l := List.get?_mem hget
      have hax : a < x := ha x hxl
      rw [List.filter_cons_of_pos (by simpa using hax), List.length_cons, ih hl hget]

/-- In a strictly increasing list, a member is retrieved at the position
counted by `sorted_filter_lt_get`. -/
theorem sorted_get_filter_lt {l : List Nat} (hs : l.Pairwise (· < ·)) {j : Nat}
    (hj : j ∈ l) : l.get? ((l.filter (fun y => y < j)).length) = some j := by
  rcases List.mem_iff_get?.1 hj with ⟨i, hi⟩
  rw [sorted_filter_lt_get hs hi]
  exact hi

/-- `flatMap` over keys of which at most one has a nonempty image. -/
theorem flatMap_single {α : Type} {keys : List Int} {h : Int → List α} {e : Int}
    (hn : keys.Nodup) (hz : ∀ k, k ≠ e → h k = []) :
    keys.flatMap h = if e ∈ keys then h e else [] := by
  induction keys with
  | nil => simp
  | cons k keys ih =>
    rcases List.nodup_cons.1 hn with ⟨hk, hkeys⟩
    by_cases hke : k = e
    · subst hke
      have : keys.flatMap h = [] := by
        rw [ih hkeys, if_neg hk]
      simp [this]
    · rw [List.flatMap_cons, hz k hke, ih hkeys, List.nil_append]
      by_cases he : e ∈ keys
      · rw [if_pos he, if_pos (List.mem_cons_of_mem _ he)]
      · have h2 : e ∉ k :: keys := by
          simp only [List.mem_cons]
          rintro (h1 | h1)
          · exact hke h1.symm
          · exact he h1
        rw [if_neg he, if_neg h2]

/-- `flatMap` respects pointwise equality of images over members. -/
theorem flatMap_congr_mem {α : Type} {keys : List Int} {h g : Int → List α}
    (hgh : ∀ k ∈ keys, h k = g k) : keys.flatMap h = keys.flatMap g := by
  induction keys with
  | nil => rfl
  | cons k keys ih =>
    rw [List.flatMap_cons, List.flatMap_cons, hgh k (List.mem_cons_self _ _),
      ih (fun k hk => hgh k (List.mem_cons_of_mem _ hk))]

/-- A table is a permutation of the concatenation of its key groups, for any
duplicate-free key list covering all its rows. -/
theorem perm_flatMap_groups {keys : List Int} {m : List MRow} {key : MRow → Int}
    (hn : keys.Nodup) (hcov : ∀ r ∈ m, key r ∈ keys) :
    List.Perm m (keys.flatMap (fun k => m.filter (fun r => key r == k))) := by
  induction keys generalizing m with
  | nil =>
    cases m with
    | nil => simp
    | cons r m => exact absurd (hcov r (List.mem_cons_self _ _)) (List.not_mem_nil _)
  | cons k keys ih =>
    rcases List.nodup_cons.1 hn with ⟨hk, hkeys⟩
    have hsplit := List.filter_append_perm (fun r => key r == k) m
    set m2 := m.filter (fun x => !(key x == k)) with hm2
    have hcov2 : ∀ r ∈ m2, key r ∈ keys := by
      intro r hr
      rcases List.mem_filter.1 hr with ⟨hrm, hrk⟩
      rcases List.mem_cons.1 (hcov r hrm) with h1 | h1
      · exfalso
        rw [Bool.not_eq_true', beq_eq_false_iff_ne] at hrk
        exact hrk h1
      · exact h1
    have hperm2 := ih hkeys hcov2
    have hgroups : ∀ k2 ∈ keys, m2.filter (fun r => key r == k2) =
        m.filter (fun r => key r == k2) := by
      intro k2 hk2
      rw [hm2, List.filter_filter]
      apply List.filter_congr
      intro r _
      cases h2 : (key r == k2) with
      | false => simp
      | true =>
        have hkk : key r = k2 := by rwa [beq_iff_eq] at h2
        have hne : (key r == k) = false := by
          rw [beq_eq_false_iff_ne, hkk]
          intro hcon
          exact hk (hcon ▸ hk2)
        simp [hne]
    rw [List.flatMap_cons]
    have hstep : keys.flatMap (fun k2 => m2.filter (fun r => key r == k2)) =
        keys.flatMap (fun k2 => m.filter (fun r => key r == k2)) :=
      flatMap_congr_mem hgroups
    refine List.Perm.trans (List.Perm.symm hsplit) ?_
    rw [← hstep]
    exact List.Perm.append_left _ hperm2

/-! ### Row access and occurrence positions -/

theorem rowAt_eq_get {s : List MRow} {j : Nat} (hj : j < s.length) :
    rowAt s j = s.get ⟨j, hj⟩ := by
  rw [rowAt]
  show (s.get? j).getD default = s.get ⟨j, hj⟩
  rw [List.get?_eq_get hj]
  rfl

theorem rowAt_append_left {s t : List MRow} {k : Nat} (h : k < s.length) :
    rowAt (s ++ t) k = rowAt s k := by
  show ((s ++ t).get? k).getD default = (s.get? k).getD default
  rw [List.get?_append h]

theorem rowAt_append_length (s : List MRow) (a : MRow) :
    rowAt (s ++ [a]) s.length = a := by
  show ((s ++ [a]).get? s.length).getD default = a
  rw [List.get?_append_right (le_refl _)]
  simp

/-- Counting rows through their positions agrees with counting them
directly. -/
theorem length_filter_range_eq (s : List MRow) (p : MRow → Bool) :
    ((List.range s.length).filter (fun k => p (rowAt s k))).length =
      (s.filter p).length := by
  induction s using List.reverseRecOn with
  | nil => rfl
  | append_singleton s a ih =>
    rw [List.length_append, List.length_singleton, List.range_succ, List.filter_append,
      List.filter_append, List.length_append, List.length_append]
    have h1 : (List.range s.length).filter (fun k => p (rowAt (s ++ [a]) k)) =
        (List.range s.length).filter (fun k => p (rowAt s k)) := by
      apply List.filter_congr
      intro k hk
      rw [rowAt_append_left (List.mem_range.1 hk)]
    have h2 : ([s.length].filter (fun k => p (rowAt (s ++ [a]) k))).length =
        ([a].filter p).length := by
      rw [List.filter_singleton, List.filter_singleton, rowAt_append_length]
      cases p a <;> rfl
    rw [h1, h2, ih]

theorem length_occs (s : List MRow) (e : Int) : (occs s e).length = countE s e :=
  length_filter_range_eq s (fun r => r.wgms_id == e)

theorem occs_pairwise (s : List MRow) (e : Int) : (occs s e).Pairwise (· < ·) :=
  List.Pairwise.sublist (List.filter_sublist _) (List.pairwise_lt_range _)

theorem mem_occs {s : List MRow} {e : Int} {j : Nat} :
    j ∈ occs s e ↔ j < s.length ∧ idAt s j = e := by
  simp [occs, List.mem_filter, List.mem_range]

theorem range_filter_lt {n j : Nat} (h : j ≤ n) :
    (List.range n).filter (fun k => k < j) = List.range j := by
  have hn : n = j + (n - j) := (Nat.add_sub_cancel' h).symm
  rw [hn, List.range_add, List.filter_append]
  have h1 : (List.range j).filter (fun k => decide (k < j)) = List.range j := by
    apply List.filter_eq_self.2
    intro k hk
    simpa using List.mem_range.1 hk
  have h2 : ((List.range (n - j)).map (j + ·)).filter (fun k => decide (k < j)) = [] := by
    apply List.filter_eq_nil_iff.2
    intro k hk
    rcases List.mem_map.1 hk with ⟨x, _, hx⟩
    simp only [decide_eq_true_eq]
    omega
  rw [h1, h2, List.append_nil]

/-- The cumulative count of a row is the number of its entity's earlier
occurrence positions. -/
theorem cumcount_eq_filter_occs {s : List MRow} {j : Nat} (hj : j < s.length) :
    cumcountOf s j = ((occs s (idAt s j)).filter (fun k => k < j)).length := by
  rw [cumcountOf, occs, List.filter_filter, ← range_filter_lt (le_of_lt hj),
    List.filter_filter]
  congr 1
  apply List.filter_congr
  intro k _
  exact Bool.and_comm _ _

/-- The `t`-th occurrence of an entity has cumulative count `t`. -/
theorem cumcount_get_occs {s : List MRow} {e : Int} {t j : Nat}
    (hget : (occs s e).get? t = some j) : cumcountOf s j = t := by
  have hjmem : j ∈ occs s e := List.get?_mem hget
  rcases mem_occs.1 hjmem with ⟨hjlen, hje⟩
  rw [cumcount_eq_filter_occs hjlen, hje]
  exact sorted_filter_lt_get (occs_pairwise s e) hget

theorem cumcount_lt_countE {s : List MRow} {j : Nat} (hj : j < s.length) :
    cumcountOf s j < countE s (idAt s j) := by
  have hjmem : j ∈ occs s (idAt s j) := mem_occs.2 ⟨hj, rfl⟩
  have hget := sorted_get_filter_lt (occs_pairwise s (idAt s j)) hjmem
  rcases List.get?_eq_some.1 hget with ⟨hlt, -⟩
  rw [← length_occs, cumcount_eq_filter_occs hj]
  exact hlt

/-- Two rows of the same entity with the same cumulative count coincide. -/
theorem cumcount_inj {s : List MRow} {j j2 : Nat} (hj : j < s.length)
    (hj2 : j2 < s.length) (hid : idAt s j = idAt s j2)
    (hcc : cumcountOf s j = cumcountOf s j2) : j = j2 := by
  have h1 := sorted_get_filter_lt (occs_pairwise s (idAt s j)) (mem_occs.2 ⟨hj, rfl⟩)
  have h2 := sorted_get_filter_lt (occs_pairwise s (idAt s j2)) (mem_occs.2 ⟨hj2, rfl⟩)
  rw [← cumcount_eq_filter_occs hj] at h1
  rw [← cumcount_eq_filter_occs hj2] at h2
  rw [hcc] at h1
  rw [← hid] at h2
  have := h1.symm.trans h2
  exact Option.some_injective _ this

/-! ### Entity ranks (factorize codes) -/

theorem idAt_mem_uids {s : List MRow} {j : Nat} (hj : j < s.length) :
    idAt s j ∈ uids s := by
  rw [uids, mem_firstSeen, List.mem_map]
  exact ⟨s.get ⟨j, hj⟩, List.get_mem _ _ _, by rw [idAt, rowAt_eq_get hj]⟩

theorem nodup_uids (s : List MRow) : (uids s).Nodup := nodup_firstSeen _

theorem rank_lt {s : List MRow} {j : Nat} (hj : j < s.length) :
    rankOf s j < (uids s).length :=
  List.indexOf_lt_length.2 (idAt_mem_uids hj)

theorem uids_get_rank {s : List MRow} {j : Nat} (hj : j < s.length) :
    (uids s).get ⟨rankOf s j, rank_lt hj⟩ = idAt s j :=
  List.indexOf_get _

theorem nodup_indexOf_get {l : List Int} (hn : l.Nodup) {i : Nat} (hi : i < l.length) :
    l.indexOf (l.get ⟨i, hi⟩) = i := by
  have hmem : l.get ⟨i, hi⟩ ∈ l := l.get_mem _ _
  have hlt : l.indexOf (l.get ⟨i, hi⟩) < l.length := List.indexOf_lt_length.2 hmem
  have hget := List.indexOf_get hlt
  have heq := (List.Nodup.get_inj_iff hn).1 hget
  exact congrArg Fin.val heq

theorem idAt_of_rank {s : List MRow} {j i : Nat} (hj : j < s.length)
    (hi : i < (uids s).length) (hr : rankOf s j = i) :
    idAt s j = (uids s).get ⟨i, hi⟩ := by
  rw [← uids_get_rank hj]
  congr 1
  exact Fin.ext hr

theorem exists_row_of_rank {s : List MRow} {i : Nat} (hi : i < (uids s).length) :
    ∃ j, j < s.length ∧ rankOf s j = i := by
  have hmem : (uids s).get ⟨i, hi⟩ ∈ uids s := List.get_mem _ _ _
  have hmem2 : (uids s).get ⟨i, hi⟩ ∈ s.map (fun r => r.wgms_id) :=
    (mem_firstSeen _ _).1 hmem
  rw [List.mem_map] at hmem2
  rcases hmem2 with ⟨r, hrs, hrid⟩
  rcases List.mem_iff_get.1 hrs with ⟨⟨j, hj⟩, hget⟩
  refine ⟨j, hj, ?_⟩
  have hidj : idAt s j = (uids s).get ⟨i, hi⟩ := by
    rw [idAt, rowAt_eq_get hj, hget, hrid]
  rw [rankOf, hidj, nodup_indexOf_get (nodup_uids s) hi]

/-! ### The maxima defining the tensor shape -/

theorem natMax_all_eq {l : List Nat} {c : Nat} (hne : l ≠ [])
    (hall : ∀ x ∈ l, x = c) : natMax l = c := by
  have h1 := natMax_mem hne
  exact hall _ h1

theorem uids_ne_nil {s : List MRow} (hne : s ≠ []) : uids s ≠ [] := by
  have h0 : 0 < s.length := List.length_pos.2 hne
  have hmem := idAt_mem_uids h0
  intro hcon
  rw [hcon] at hmem
  cases hmem

/-- `x.max() + 1` is the number of distinct surviving entity identifiers. -/
theorem xMax_add_one {s : List MRow} (hne : s ≠ []) : xMax s + 1 = (uids s).length := by
  have h0 : 0 < s.length := List.length_pos.2 hne
  apply Nat.le_antisymm
  · have hmem : xMax s ∈ (List.range s.length).map (rankOf s) := by
      apply natMax_mem
      simp only [ne_eq, List.map_eq_nil_iff, List.range_eq_nil]
      omega
    rcases List.mem_map.1 hmem with ⟨j, hj, hr⟩
    rw [List.mem_range] at hj
    rw [← hr]
    exact Nat.succ_le_of_lt (rank_lt hj)
  · have hu : (uids s).length - 1 < (uids s).length :=
      Nat.sub_lt (List.length_pos.2 (uids_ne_nil hne)) one_pos
    rcases exists_row_of_rank hu with ⟨j, hj, hr⟩
    have hle : (uids s).length - 1 ≤ xMax s := by
      rw [← hr]
      exact le_natMax (List.mem_map.2 ⟨j, List.mem_range.2 hj, rfl⟩)
    have hpos := List.length_pos.2 (uids_ne_nil hne)
    omega

theorem countE_pos_of_mem_uids {s : List MRow} {e : Int} (he : e ∈ uids s) :
    0 < countE s e := by
  rw [← length_occs]
  rw [uids, mem_firstSeen, List.mem_map] at he
  rcases he with ⟨r, hrs, hrid⟩
  rcases List.mem_iff_get.1 hrs with ⟨⟨j, hj⟩, hget⟩
  have hmem : j ∈ occs s e := by
    refine mem_occs.2 ⟨hj, ?_⟩
    rw [idAt, rowAt_eq_get hj, hget, hrid]
  exact List.length_pos.2 (List.ne_nil_of_mem hmem)

/-- `y.max() + 1` is the maximum per-entity surviving row count. -/
theorem yMax_add_one {s : List MRow} (hne : s ≠ []) : yMax s + 1 = maxCountE s := by
  have h0 : 0 < s.length := List.length_pos.2 hne
  apply Nat.le_antisymm
  · have hmem : yMax s ∈ (List.range s.length).map (cumcountOf s) := by
      apply natMax_mem
      simp only [ne_eq, List.map_eq_nil_iff, List.range_eq_nil]
      omega
    rcases List.mem_map.1 hmem with ⟨j, hj, hcc⟩
    rw [List.mem_range] at hj
    have h1 : cumcountOf s j < countE s (idAt s j) := cumcount_lt_countE hj
    have h2 : countE s (idAt s j) ≤ maxCountE s :=
      le_natMax (List.mem_map.2 ⟨idAt s j, idAt_mem_uids hj, rfl⟩)
    omega
  · have hmm : maxCountE s ∈ (uids s).map (countE s) := by
      apply natMax_mem
      simp [uids_ne_nil hne]
    rcases List.mem_map.1 hmm with ⟨e, he, hce⟩
    have hepos : 0 < countE s e := countE_pos_of_mem_uids he
    have hcnt : countE s e - 1 < (occs s e).length := by
      rw [length_occs]
      omega
    have hget : (occs s e).get? (countE s e - 1) =
        some ((occs s e).get ⟨countE s e - 1, hcnt⟩) := List.get?_eq_get hcnt
    set j := (occs s e).get ⟨countE s e - 1, hcnt⟩ with hjdef
    have hjmem : j ∈ occs s e := List.get_mem _ _ _
    rcases mem_occs.1 hjmem with ⟨hjlen, -⟩
    have hcc : cumcountOf s j = countE s e - 1 := cumcount_get_occs hget
    have hle : countE s e - 1 ≤ yMax s := by
      rw [← hcc]
      exact le_natMax (List.mem_map.2 ⟨j, List.mem_range.2 hjlen, rfl⟩)
    omega

/-! ### The scatter `out[x, y] = vals` -/

theorem writers_nodup (s : List MRow) (i t : Nat) : (writers s i t).Nodup :=
  List.Sublist.nodup (List.filter_sublist _) (List.nodup_range _)

theorem mem_writers {s : List MRow} {i t j : Nat} :
    j ∈ writers s i t ↔ j < s.length ∧ rankOf s j = i ∧ cumcountOf s j = t := by
  simp [writers, List.mem_filter, List.mem_range]

/-- Cells beyond an entity's row count receive no write. -/
theorem writers_eq_nil {s : List MRow} {i t : Nat} (hi : i < (uids s).length)
    (ht : countE s ((uids s).get ⟨i, hi⟩) ≤ t) : writers s i t = [] := by
  rw [List.eq_nil_iff_forall_not_mem]
  intro j hj
  rcases mem_writers.1 hj with ⟨hjlen, hr, hcc⟩
  have hid : idAt s j = (uids s).get ⟨i, hi⟩ := idAt_of_rank hjlen hi hr
  have := cumcount_lt_countE hjlen
  rw [hid, hcc] at this
  omega

/-- Cells within an entity's row count are written by exactly one row. -/
theorem writers_singleton {s : List MRow} {i t : Nat} (hi : i < (uids s).length)
    (ht : t < countE s ((uids s).get ⟨i, hi⟩)) :
    ∃ j, writers s i t = [j] ∧ j < s.length ∧
      idAt s j = (uids s).get ⟨i, hi⟩ := by
  have htlt : t < (occs s ((uids s).get ⟨i, hi⟩)).length := by
    rw [length_occs]
    exact ht
  have hget : (occs s ((uids s).get ⟨i, hi⟩)).get? t =
      some ((occs s ((uids s).get ⟨i, hi⟩)).get ⟨t, htlt⟩) := List.get?_eq_get htlt
  set j := (occs s ((uids s).get ⟨i, hi⟩)).get ⟨t, htlt⟩ with hjdef
  have hjocc : j ∈ occs s ((uids s).get ⟨i, hi⟩) := List.get_mem _ _ _
  rcases mem_occs.1 hjocc with ⟨hjlen, hje⟩
  have hcc : cumcountOf s j = t := cumcount_get_occs hget
  have hrk : rankOf s j = i := by
    rw [rankOf, hje]
    exact nodup_indexOf_get (nodup_uids s) hi
  refine ⟨j, ?_, hjlen, hje⟩
  apply nodup_all_eq_singleton (writers_nodup s i t) (mem_writers.2 ⟨hjlen, hrk, hcc⟩)
  intro j2 hj2
  rcases mem_writers.1 hj2 with ⟨hj2len, hr2, hcc2⟩
  have hid2 : idAt s j2 = (uids s).get ⟨i, hi⟩ := idAt_of_rank hj2len hi hr2
  exact cumcount_inj hj2len hjlen (hid2.trans hje.symm) (hcc2.trans hcc.symm)

/-- Padding: a cell at a time step at or beyond its entity's row count holds
the missing-value marker. -/
theorem cellVal_padding {s : List MRow} {i t : Nat} (hi : i < (uids s).length)
    (ht : countE s ((uids s).get ⟨i, hi⟩) ≤ t) (f : Nat) : cellVal s i t f = none := by
  rw [cellVal, writers_eq_nil hi ht]
  rfl

/-- Data: a cell within its entity's row count holds the feature value of
exactly one surviving row. -/
theorem cellVal_data {s : List MRow} {i t : Nat} (hi : i < (uids s).length)
    (ht : t < countE s ((uids s).get ⟨i, hi⟩)) :
    ∃ j, j < s.length ∧ rankOf s j = i ∧ cumcountOf s j = t ∧
      (∀ f, cellVal s i t f = (rowAt s j).feats.getD f none) ∧
      (∀ j2, j2 < s.length → rankOf s j2 = i → cumcountOf s j2 = t → j2 = j) := by
  rcases writers_singleton hi ht with ⟨j, hw, hjlen, -⟩
  have hjw : j ∈ writers s i t := by
    rw [hw]
    exact List.mem_singleton_self _
  rcases mem_writers.1 hjw with ⟨-, hr, hcc⟩
  refine ⟨j, hjlen, hr, hcc, ?_, ?_⟩
  · intro f
    rw [cellVal, hw]
    rfl
  · intro j2 hj2len hr2 hcc2
    have : j2 ∈ writers s i t := mem_writers.2 ⟨hj2len, hr2, hcc2⟩
    rw [hw] at this
    exact List.mem_singleton.1 this

/-! ### Tensor shape and access -/

theorem getD_map_range {α : Type} (g : Nat → α) {n i : Nat} (d : α) (hi : i < n) :
    ((List.range n).map g).getD i d = g i := by
  show (((List.range n).map g).get? i).getD d = g i
  rw [List.get?_map, List.get?_range hi]
  rfl

theorem outTensor_length (s : List MRow) (numFeats : Nat) :
    (outTensor s numFeats).length = xMax s + 1 := by
  simp [outTensor]

theorem outTensor_plane_length {s : List MRow} {numFeats : Nat} {plane : List (List (Option Int))}
    (h : plane ∈ outTensor s numFeats) : plane.length = yMax s + 1 := by
  rcases List.mem_map.1 h with ⟨i, -, hi⟩
  rw [← hi]
  simp

theorem outTensor_row_length {s : List MRow} {numFeats : Nat}
    {plane : List (List (Option Int))} {row : List (Option Int)}
    (h : plane ∈ outTensor s numFeats) (h2 : row ∈ plane) : row.length = numFeats := by
  rcases List.mem_map.1 h with ⟨i, -, hi⟩
  rw [← hi] at h2
  rcases List.mem_map.1 h2 with ⟨t, -, ht⟩
  rw [← ht]
  simp

theorem outTensor_entry {s : List MRow} {numFeats i t f : Nat} (hi : i ≤ xMax s)
    (ht : t ≤ yMax s) (hf : f < numFeats) :
    (((outTensor s numFeats).getD i []).getD t []).getD f none = cellVal s i t f := by
  rw [outTensor, getD_map_range _ _ (by omega), getD_map_range _ _ (by omega),
    getD_map_range _ _ hf]

/-- `to_time_series_dataset` returns a dataset of equal-length series
unchanged. -/
theorem tts_dataset_of_uniform {ds : List (List (List (Option Int)))}
    (huni : ∀ srs ∈ ds, srs.length = natMax (ds.map List.length)) :
    to_time_series_dataset ds = ds := by
  rw [to_time_series_dataset]
  have : ∀ srs ∈ ds, (srs ++ List.replicate (natMax (ds.map List.length) - srs.length)
      (List.replicate (((ds.headD []).headD []).length) none)) = srs := by
    intro srs hsrs
    rw [huni srs hsrs, Nat.sub_self]
    simp
  rw [List.map_congr_left this]
  exact List.map_id _

theorem uids_length_eq_distinctIds (s : List MRow) :
    (uids s).length = distinctIds s :=
  length_firstSeen _

theorem countE_le_maxCountE {s : List MRow} {e : Int} (he : e ∈ uids s) :
    countE s e ≤ maxCountE s :=
  le_natMax (List.mem_map.2 ⟨e, he, rfl⟩)

theorem keepBigGroups_nil (key : MRow → Int) : keepBigGroups key [] = [] := rfl

theorem to_time_series_dataset_outTensor (s : List MRow) (numFeats : Nat) :
    to_time_series_dataset (outTensor s numFeats) = outTensor s numFeats := by
  apply tts_dataset_of_uniform
  intro srs hsrs
  rw [outTensor_plane_length hsrs]
  have hne : outTensor s numFeats ≠ [] := List.ne_nil_of_mem hsrs
  have : natMax ((outTensor s numFeats).map List.length) = yMax s + 1 := by
    apply natMax_all_eq
    · simpa using hne
    · intro x hx
      rcases List.mem_map.1 hx with ⟨plane, hplane, hlen⟩
      rw [← hlen]
      exact outTensor_plane_length hplane
  rw [this]

theorem to_timeseries_ok {m : List MRow} (numFeats : Nat) (hne : survivors m ≠ []) :
    to_timeseries m numFeats =
      .ok (outTensor (survivors m) numFeats, survivors m) := by
  have hs2 : (entityFilter (dropnaFeats m)).isEmpty = false := by
    rw [List.isEmpty_eq_false_iff_exists_mem]
    rcases List.exists_mem_of_ne_nil _ hne with ⟨r, hr⟩
    rw [survivors] at hr
    cases h2 : entityFilter (dropnaFeats m) with
    | nil =>
      rw [h2] at hr
      have hnil : yearFilter [] = [] := rfl
      rw [hnil] at hr
      cases hr
    | cons a l => exact ⟨a, h2 ▸ List.mem_cons_self a l⟩
  have hs3 : (yearFilter (entityFilter (dropnaFeats m))).isEmpty = false := by
    rw [List.isEmpty_eq_false_iff_exists_mem]
    rcases List.exists_mem_of_ne_nil _ hne with ⟨r, hr⟩
    exact ⟨r, hr⟩
  rw [to_timeseries]
  simp only [hs2, hs3, Bool.false_eq_true, if_false]
  rw [to_time_series_dataset_outTensor]
  rfl

/-! ### Structure of the group filters -/

theorem nodup_sortedKeysBy (key : MRow → Int) (m : List MRow) :
    (sortedKeysBy key m).Nodup := by
  rw [sortedKeysBy]
  exact (List.Perm.nodup_iff (List.perm_insertionSort _ _)).2 (List.nodup_dedup _)

theorem mem_sortedKeysBy {key : MRow → Int} {m : List MRow} {k : Int} :
    k ∈ sortedKeysBy key m ↔ k ∈ m.map key := by
  rw [sortedKeysBy, (List.perm_insertionSort _ _).mem_iff, List.mem_dedup]

/-- The group of key `e` inside `keepBigGroups`: kept whole when it has more
than one row, dropped whole otherwise. -/
theorem keepBigGroups_group (key : MRow → Int) (m : List MRow) (e : Int) :
    (keepBigGroups key m).filter (fun r => key r == e) =
      if 1 < (m.filter (fun r => key r == e)).length
      then m.filter (fun r => key r == e) else [] := by
  rw [keepBigGroups, List.filter_flatMap]
  have hz : ∀ k, k ≠ e →
      ((if 1 < (m.filter (fun r => key r == k)).length
        then m.filter (fun r => key r == k) else []).filter (fun r => key r == e)) = [] := by
    intro k hk
    by_cases hbig : 1 < (m.filter (fun r => key r == k)).length
    · rw [if_pos hbig, List.filter_filter]
      apply List.filter_eq_nil_iff.2
      intro r _
      cases h1 : (key r == k) with
      | false => simp [h1]
      | true =>
        have : key r = k := by rwa [beq_iff_eq] at h1
        simp [this, hk]
    · rw [if_neg hbig]
      rfl
  have hsingle := flatMap_single (nodup_sortedKeysBy key m) hz
  rw [hsingle]
  by_cases hmem : e ∈ sortedKeysBy key m
  · rw [if_pos hmem]
    have hcong : ∀ k2 ∈ m, ((key k2 == e) && (key k2 == e)) = (key k2 == e) := by
      intro k2 _
      cases h1 : (key k2 == e) <;> simp
    by_cases hbig : 1 < (m.filter (fun r => key r == e)).length
    · rw [if_pos hbig, List.filter_filter, List.filter_congr hcong]
    · rw [if_neg hbig]
      rfl
  · rw [if_neg hmem]
    have hgempty : m.filter (fun r => key r == e) = [] := by
      apply List.filter_eq_nil_iff.2
      intro r hr
      cases h1 : (key r == e) with
      | false => simp
      | true =>
        exfalso
        apply hmem
        rw [mem_sortedKeysBy]
        have : key r = e := by rwa [beq_iff_eq] at h1
        exact this ▸ List.mem_map.2 ⟨r, hr, rfl⟩
    rw [hgempty]
    simp

theorem mem_keepBigGroups {key : MRow → Int} {m : List MRow} {r : MRow} :
    r ∈ keepBigGroups key m ↔
      r ∈ m ∧ 1 < (m.filter (fun x => key x == key r)).length := by
  constructor
  · intro h
    rw [keepBigGroups, List.mem_flatMap] at h
    rcases h with ⟨k, -, hrk⟩
    by_cases hbig : 1 < (m.filter (fun x => key x == k)).length
    · rw [if_pos hbig] at hrk
      rcases List.mem_filter.1 hrk with ⟨hrm, hkey⟩
      have hk : key r = k := by rwa [beq_iff_eq] at hkey
      rw [← hk] at hbig
      exact ⟨hrm, hbig⟩
    · rw [if_neg hbig] at hrk
      cases hrk
  · rintro ⟨hrm, hbig⟩
    rw [keepBigGroups, List.mem_flatMap]
    refine ⟨key r, ?_, ?_⟩
    · rw [mem_sortedKeysBy]
      exact List.mem_map.2 ⟨r, hrm, rfl⟩
    · rw [if_pos hbig]
      exact List.mem_filter.2 ⟨hrm, by simp⟩

theorem flatMap_sublist_flatMap {α : Type} {keys : List Int} {h g : Int → List α}
    (hsub : ∀ k ∈ keys, List.Sublist (h k) (g k)) :
    List.Sublist (keys.flatMap h) (keys.flatMap g) := by
  induction keys with
  | nil => exact List.Sublist.refl _
  | cons k keys ih =>
    rw [List.flatMap_cons, List.flatMap_cons]
    exact List.Sublist.append (hsub k (List.mem_cons_self _ _))
      (ih (fun k2 hk2 => hsub k2 (List.mem_cons_of_mem _ hk2)))

/-- The kept groups form a sub-permutation of the table. -/
theorem keepBigGroups_subperm (key : MRow → Int) (m : List MRow) :
    List.Subperm (keepBigGroups key m) m := by
  have hperm := perm_flatMap_groups (nodup_sortedKeysBy key m)
    (fun r hr => mem_sortedKeysBy.2 (List.mem_map.2 ⟨r, hr, rfl⟩))
  have hsub : List.Sublist (keepBigGroups key m)
      ((sortedKeysBy key m).flatMap (fun k => m.filter (fun r => key r == k))) := by
    rw [keepBigGroups]
    apply flatMap_sublist_flatMap
    intro k _
    by_cases hbig : 1 < (m.filter (fun r => key r == k)).length
    · rw [if_pos hbig]
    · rw [if_neg hbig]
      exact List.nil_sublist _
  exact List.Subperm.trans hsub.subperm hperm.symm.subperm

theorem survivors_subperm (m : List MRow) : List.Subperm (survivors m) m := by
  have h1 : List.Subperm (dropnaFeats m) m := (List.filter_sublist m).subperm
  have h2 := keepBigGroups_subperm (fun r => r.wgms_id) (dropnaFeats m)
  have h3 := keepBigGroups_subperm (fun r => r.year)
    (entityFilter (dropnaFeats m))
  exact List.Subperm.trans h3 (List.Subperm.trans h2 h1)

theorem subperm_map {α β : Type} {l m : List α} (f : α → β) (h : List.Subperm l m) :
    List.Subperm (l.map f) (m.map f) := by
  rcases h with ⟨l2, hperm, hsub⟩
  exact ⟨l2.map f, hperm.map f, hsub.map f⟩

theorem nodup_of_subperm {α : Type} {l m : List α} (h : List.Subperm l m)
    (hm : m.Nodup) : l.Nodup := by
  rcases h with ⟨l2, hperm, hsub⟩
  exact (List.Perm.nodup_iff hperm).1 (List.Sublist.nodup hsub hm)

/-! ### Claim theorems for the reshaper -/

/-- Core tensor characterisation: shape, padding and cell provenance of the
array built by `to_timeseries`. -/
theorem tensor_spec_core (m : List MRow) (numFeats : Nat)
    (hne : survivors m ≠ []) :
    ∃ ts, to_timeseries m numFeats = .ok (ts, survivors m) ∧
      (ts.length = distinctIds (survivors m) ∧
        (∀ plane ∈ ts, plane.length = maxCountE (survivors m)) ∧
        (∀ plane ∈ ts, ∀ row ∈ plane, row.length = numFeats)) ∧
      (∀ i, (hi : i < (uids (survivors m)).length) → ∀ t,
        t < maxCountE (survivors m) →
        countE (survivors m) ((uids (survivors m)).get ⟨i, hi⟩) ≤ t →
        ∀ f < numFeats, ((ts.getD i []).getD t []).getD f none = none) ∧
      (∀ i, (hi : i < (uids (survivors m)).length) → ∀ t,
        t < countE (survivors m) ((uids (survivors m)).get ⟨i, hi⟩) →
        ∃ j, j < (survivors m).length ∧ rankOf (survivors m) j = i ∧
          cumcountOf (survivors m) j = t ∧
          (∀ f < numFeats, ((ts.getD i []).getD t []).getD f none =
            (rowAt (survivors m) j).feats.getD f none) ∧
          (∀ j2, j2 < (survivors m).length → rankOf (survivors m) j2 = i →
            cumcountOf (survivors m) j2 = t → j2 = j)) := by
  refine ⟨outTensor (survivors m) numFeats, to_timeseries_ok numFeats hne, ?_, ?_, ?_⟩
  · refine ⟨?_, ?_, ?_⟩
    · rw [outTensor_length, xMax_add_one hne, uids_length_eq_distinctIds]
    · intro plane hplane
      rw [outTensor_plane_length hplane, yMax_add_one hne]
    · intro plane hplane row hrow
      exact outTensor_row_length hplane hrow
  · intro i hi t htmax hcnt f hf
    have hix : i ≤ xMax (survivors m) := by
      have := xMax_add_one hne
      omega
    have hty : t ≤ yMax (survivors m) := by
      have := yMax_add_one hne
      omega
    rw [outTensor_entry hix hty hf]
    exact cellVal_padding hi hcnt f
  · intro i hi t ht
    have hix : i ≤ xMax (survivors m) := by
      have := xMax_add_one hne
      omega
    have hty : t ≤ yMax (survivors m) := by
      have h1 : countE (survivors m) ((uids (survivors m)).get ⟨i, hi⟩) ≤
          maxCountE (survivors m) := countE_le_maxCountE (List.get_mem _ _ _)
      have := yMax_add_one hne
      omega
    rcases cellVal_data hi ht with ⟨j, hjlen, hr, hcc, hcell, huniq⟩
    refine ⟨j, hjlen, hr, hcc, ?_, huniq⟩
    intro f hf
    rw [outTensor_entry hix hty hf]
    exact hcell f

/-- C1: For every merged table surviving the reshaper's three filters
(all-feature-missing dropna, entity row-count > 1, year row-count > 1),
`to_timeseries` produces a tensor of shape `(N, T_max, F)` where `N` is the
number of distinct entity identifiers in the surviving rows, `T_max` is the
maximum per-entity surviving row count, `F` is the number of configured
feature columns; every cell `(entity rank i, time step t)` with `t` at or
beyond the row count of entity `i` holds the missing-value marker NaN, and
every non-padded cell equals the feature vector of exactly one surviving
merged row. -/
theorem to_timeseries_tensor_claim (m : List MRow) (numFeats : Nat)
    (hne : survivors m ≠ []) :
    ∃ ts, to_timeseries m numFeats = .ok (ts, survivors m) ∧
      (ts.length = distinctIds (survivors m) ∧
        (∀ plane ∈ ts, plane.length = maxCountE (survivors m)) ∧
        (∀ plane ∈ ts, ∀ row ∈ plane, row.length = numFeats)) ∧
      (∀ i, (hi : i < (uids (survivors m)).length) → ∀ t,
        t < maxCountE (survivors m) →
        countE (survivors m) ((uids (survivors m)).get ⟨i, hi⟩) ≤ t →
        ∀ f < numFeats, ((ts.getD i []).getD t []).getD f none = none) ∧
      (∀ i, (hi : i < (uids (survivors m)).length) → ∀ t,
        t < countE (survivors m) ((uids (survivors m)).get ⟨i, hi⟩) →
        ∃ j, j < (survivors m).length ∧ rankOf (survivors m) j = i ∧
          cumcountOf (survivors m) j = t ∧
          (∀ f < numFeats, ((ts.getD i []).getD t []).getD f none =
            (rowAt (survivors m) j).feats.getD f none) ∧
          (∀ j2, j2 < (survivors m).length → rankOf (survivors m) j2 = i →
            cumcountOf (survivors m) j2 = t → j2 = j)) :=
  tensor_spec_core m numFeats hne

/-- A concrete merged table used by the witnesses: entity 1 with three rows,
entity 2 with one row, entity 3 with two rows. -/
def mWitness : List MRow :=
  [⟨1, 2000, [some 10]⟩, ⟨1, 2000, [some 11]⟩, ⟨1, 2001, [some 12]⟩,
   ⟨2, 2005, [some 13]⟩, ⟨3, 2000, [some 14]⟩, ⟨3, 2001, [some 15]⟩]

/-- Witness for C1 at a concrete merged table. -/
theorem to_timeseries_tensor_claim_witness :
    ∃ ts, to_timeseries mWitness 1 = .ok (ts, survivors mWitness) ∧
      ts.length = distinctIds (survivors mWitness) := by
  rcases to_timeseries_tensor_claim mWitness 1 (by decide) with ⟨ts, hok, hshape, -, -⟩
  exact ⟨ts, hok, hshape.1⟩

/-- C6 (amended): the reference table returned by `to_timeseries` is exactly
the list of rows surviving the filters, in the same order; and when the
incoming merged table already has no duplicate (entity identifier, year)
pair, neither does the reference table. -/
theorem reference_table_claim (m : List MRow) (numFeats : Nat)
    (hne : survivors m ≠ [])
    (hkeys : (m.map (fun r => (r.wgms_id, r.year))).Nodup) :
    to_timeseries m numFeats =
      .ok (outTensor (survivors m) numFeats, survivors m) ∧
    ((survivors m).map (fun r => (r.wgms_id, r.year))).Nodup :=
  ⟨to_timeseries_ok numFeats hne,
    nodup_of_subperm (subperm_map _ (survivors_subperm m)) hkeys⟩

/-- A merged table with pairwise-distinct (entity identifier, year) pairs. -/
def mUniqueKeys : List MRow :=
  [⟨1, 2000, [some 1]⟩, ⟨1, 2001, [some 2]⟩, ⟨2, 2000, [some 3]⟩, ⟨2, 2001, [some 4]⟩]

/-- Witness for C6 at a concrete merged table. -/
theorem reference_table_claim_witness :
    to_timeseries mUniqueKeys 1 =
      .ok (outTensor (survivors mUniqueKeys) 1, survivors mUniqueKeys) ∧
    ((survivors mUniqueKeys).map (fun r => (r.wgms_id, r.year))).Nodup :=
  reference_table_claim mUniqueKeys 1 (by decide) (by decide)

/-- A merged table with duplicate (entity identifier, year) pairs that
survive the reshaper's filters. -/
def mDupKeys : List MRow :=
  [⟨1, 2000, [some 1]⟩, ⟨1, 2000, [some 2]⟩, ⟨2, 2000, [some 3]⟩, ⟨2, 2000, [some 4]⟩]

/-- C6 counterexample: `to_timeseries` succeeds on `mDupKeys`, yet the
reference table it returns contains two rows with the same
(entity identifier, year) pair, so (entity identifier, year) is not a unique
key of the reference table. -/
theorem reference_table_unique_counterexample :
    to_timeseries mDupKeys 1 =
      .ok (outTensor (survivors mDupKeys) 1, survivors mDupKeys) ∧
    ¬ ((survivors mDupKeys).map (fun r => (r.wgms_id, r.year))).Nodup := by
  constructor
  · exact to_timeseries_ok 1 (by decide)
  · decide

theorem natMax_le {l : List Nat} {c : Nat} (h : ∀ x ∈ l, x ≤ c) : natMax l ≤ c := by
  cases l with
  | nil => exact Nat.zero_le c
  | cons a l => exact h _ (natMax_mem (by simp))

theorem countE_perm {s s2 : List MRow} (h : List.Perm s s2) (e : Int) :
    countE s e = countE s2 e :=
  (h.filter _).length_eq

/-- When every group has more than one row, `keepBigGroups` keeps everything
(up to the key-sorted reordering). -/
theorem keepBigGroups_perm_all_big {key : MRow → Int} {m : List MRow}
    (hbig : ∀ r ∈ m, 1 < (m.filter (fun x => key x == key r)).length) :
    List.Perm (keepBigGroups key m) m := by
  have hperm := perm_flatMap_groups (nodup_sortedKeysBy key m)
    (fun r hr => mem_sortedKeysBy.2 (List.mem_map.2 ⟨r, hr, rfl⟩))
  have heq : keepBigGroups key m =
      (sortedKeysBy key m).flatMap (fun k => m.filter (fun r => key r == k)) := by
    rw [keepBigGroups]
    apply flatMap_congr_mem
    intro k hk
    rcases List.mem_map.1 (mem_sortedKeysBy.1 hk) with ⟨r, hrm, hrk⟩
    have hb := hbig r hrm
    rw [hrk] at hb
    rw [if_pos hb]
  rw [heq]
  exact hperm.symm

theorem countE_entityFilter (m : List MRow) (e : Int) :
    countE (entityFilter m) e = if 1 < countE m e then countE m e else 0 := by
  simp only [countE, entityFilter]
  rw [keepBigGroups_group]
  by_cases hbig : 1 < (List.filter (fun r => r.wgms_id == e) m).length
  · rw [if_pos hbig, if_pos hbig]
  · rw [if_neg hbig, if_neg hbig]
    rfl

theorem mem_entityFilter {m : List MRow} {r : MRow} :
    r ∈ entityFilter m ↔ r ∈ m ∧ 1 < countE m r.wgms_id :=
  mem_keepBigGroups

theorem mem_uids_of_countE_pos {s : List MRow} {e : Int} (h : 0 < countE s e) :
    e ∈ uids s := by
  rw [countE] at h
  rcases List.exists_mem_of_ne_nil _ (List.ne_nil_of_length_pos h) with ⟨r, hr⟩
  rcases List.mem_filter.1 hr with ⟨hrs, hre⟩
  have hid : r.wgms_id = e := by rwa [beq_iff_eq] at hre
  exact (mem_firstSeen _ _).2 (List.mem_map.2 ⟨r, hrs, hid⟩)

theorem exists_row_of_mem_uids {s : List MRow} {e : Int} (he : e ∈ uids s) :
    ∃ r ∈ s, r.wgms_id = e := by
  have := (mem_firstSeen _ _).1 he
  rcases List.mem_map.1 this with ⟨r, hrs, hre⟩
  exact ⟨r, hrs, hre⟩

/-- C2: For a merged table holding entities `a` (3 rows), `b` (1 row) and `c`
(2 rows), every row having at least one non-missing feature value and every
year of the rows remaining after the entity filter observed by both `a` and
`c`, `to_timeseries` drops entity `b` entirely, the tensor's entity-rank axis
has length 2, `T_max` is 3, and entity `c`'s tensor row holds the padding
marker at time-step index 2. -/
theorem three_entity_scenario_claim (m : List MRow) (a b c : Int) (numFeats : Nat)
    (hab : a ≠ b) (hac : a ≠ c) (hbc : b ≠ c)
    (hids : ∀ r ∈ m, r.wgms_id = a ∨ r.wgms_id = b ∨ r.wgms_id = c)
    (hca : countE m a = 3) (hcb : countE m b = 1) (hcc : countE m c = 2)
    (hnn : ∀ r ∈ m, r.feats.any (fun v => v.isSome) = true)
    (hyears : ∀ r ∈ m, r.wgms_id ≠ b →
      (∃ r1 ∈ m, r1.wgms_id = a ∧ r1.year = r.year) ∧
      (∃ r2 ∈ m, r2.wgms_id = c ∧ r2.year = r.year)) :
    (∀ r ∈ survivors m, r.wgms_id ≠ b) ∧
    ∃ ts, to_timeseries m numFeats = .ok (ts, survivors m) ∧
      ts.length = 2 ∧ (∀ plane ∈ ts, plane.length = 3) ∧
      ∃ _hc : (uids (survivors m)).indexOf c < (uids (survivors m)).length,
        ∀ f < numFeats,
          ((ts.getD ((uids (survivors m)).indexOf c) []).getD 2 []).getD f none =
            none := by
  have hdrop : dropnaFeats m = m := List.filter_eq_self.2 hnn
  have hsurv : survivors m = yearFilter (entityFilter m) := by
    rw [survivors, hdrop]
  -- membership and counts after the entity filter
  have hmemEF : ∀ r ∈ entityFilter m, r.wgms_id = a ∨ r.wgms_id = c := by
    intro r hr
    rcases mem_entityFilter.1 hr with ⟨hrm, hrbig⟩
    rcases hids r hrm with h1 | h1 | h1
    · exact Or.inl h1
    · rw [h1, hcb] at hrbig
      omega
    · exact Or.inr h1
  have hEFa : countE (entityFilter m) a = 3 := by
    rw [countE_entityFilter, hca, if_pos (by omega)]
  have hEFb : countE (entityFilter m) b = 0 := by
    rw [countE_entityFilter, hcb, if_neg (by omega)]
  have hEFc : countE (entityFilter m) c = 2 := by
    rw [countE_entityFilter, hcc, if_pos (by omega)]
  -- every year group after the entity filter has at least two rows
  have hyearBig : ∀ r ∈ entityFilter m,
      1 < ((entityFilter m).filter (fun x => x.year == r.year)).length := by
    intro r hr
    have hrnotb : r.wgms_id ≠ b := by
      rcases hmemEF r hr with h1 | h1
      · rw [h1]; exact hab
      · rw [h1]; exact fun h2 => hbc h2.symm
    rcases mem_entityFilter.1 hr with ⟨hrm, -⟩
    rcases hyears r hrm hrnotb with ⟨⟨r1, hr1m, hr1a, hr1y⟩, ⟨r2, hr2m, hr2c, hr2y⟩⟩
    have hr1in : r1 ∈ entityFilter m := by
      refine mem_entityFilter.2 ⟨hr1m, ?_⟩
      rw [hr1a, hca]
      omega
    have hr2in : r2 ∈ entityFilter m := by
      refine mem_entityFilter.2 ⟨hr2m, ?_⟩
      rw [hr2c, hcc]
      omega
    have hr12 : r1 ≠ r2 := by
      intro hcon
      rw [hcon, hr2c] at hr1a
      exact hac hr1a.symm
    apply one_lt_length_of_two_mem (a := r1) (b := r2) ?_ ?_ hr12
    · exact List.mem_filter.2 ⟨hr1in, by simp [hr1y]⟩
    · exact List.mem_filter.2 ⟨hr2in, by simp [hr2y]⟩
  have hperm : List.Perm (survivors m) (entityFilter m) := by
    rw [hsurv]
    exact keepBigGroups_perm_all_big hyearBig
  -- counts among survivors
  have hSa : countE (survivors m) a = 3 := (countE_perm hperm a).trans hEFa
  have hSb : countE (survivors m) b = 0 := (countE_perm hperm b).trans hEFb
  have hSc : countE (survivors m) c = 2 := (countE_perm hperm c).trans hEFc
  have hSne : survivors m ≠ [] := by
    intro hcon
    rw [hcon] at hSa
    simp [countE] at hSa
  have hnob : ∀ r ∈ survivors m, r.wgms_id ≠ b := by
    intro r hr hrb
    have hmem : r ∈ (survivors m).filter (fun x => x.wgms_id == b) :=
      List.mem_filter.2 ⟨hr, by simp [hrb]⟩
    have := List.length_pos.2 (List.ne_nil_of_mem hmem)
    rw [show ((survivors m).filter (fun x => x.wgms_id == b)).length =
      countE (survivors m) b from rfl, hSb] at this
    omega
  have hauids : a ∈ uids (survivors m) := mem_uids_of_countE_pos (by omega)
  have hcuids : c ∈ uids (survivors m) := mem_uids_of_countE_pos (by omega)
  have hidsS : ∀ e ∈ uids (survivors m), e = a ∨ e = c := by
    intro e he
    rcases exists_row_of_mem_uids he with ⟨r, hrS, hre⟩
    have hrm : r ∈ m := (survivors_subperm m).subset hrS
    rcases hids r hrm with h1 | h1 | h1
    · exact Or.inl (by rw [← hre, h1])
    · exfalso
      apply hnob r hrS
      rw [h1]
    · exact Or.inr (by rw [← hre, h1])
  have hdist : distinctIds (survivors m) = 2 := by
    have htf : ((survivors m).map (fun r => r.wgms_id)).toFinset = {a, c} := by
      ext e
      simp only [List.mem_toFinset, Finset.mem_insert, Finset.mem_singleton]
      constructor
      · intro he
        exact hidsS e ((mem_firstSeen _ _).2 he)
      · rintro (rfl | rfl)
        · exact (mem_firstSeen _ _).1 hauids
        · exact (mem_firstSeen _ _).1 hcuids
    rw [distinctIds, htf]
    exact Finset.card_pair hac
  have hmaxc : maxCountE (survivors m) = 3 := by
    apply Nat.le_antisymm
    · apply natMax_le
      intro x hx
      rcases List.mem_map.1 hx with ⟨e, he, hce⟩
      rcases hidsS e he with rfl | rfl
      · omega
      · omega
    · have hmm : countE (survivors m) a ∈ (uids (survivors m)).map (countE (survivors m)) :=
        List.mem_map.2 ⟨a, hauids, rfl⟩
      have := le_natMax hmm
      rw [maxCountE]
      omega
  rcases tensor_spec_core m numFeats hSne with ⟨ts, hok, ⟨hlen, hplanes, -⟩, hpad, -⟩
  refine ⟨hnob, ts, hok, ?_, ?_, ?_⟩
  · rw [hlen, hdist]
  · intro plane hplane
    rw [hplanes plane hplane, hmaxc]
  · have hic : (uids (survivors m)).indexOf c < (uids (survivors m)).length :=
      List.indexOf_lt_length.2 hcuids
    refine ⟨hic, ?_⟩
    intro f hf
    have hget : (uids (survivors m)).get ⟨(uids (survivors m)).indexOf c, hic⟩ = c :=
      List.indexOf_get _
    apply hpad _ hic 2 (by omega) ?_ f hf
    rw [hget, hSc]

/-- Witness for C2: the scenario instantiated at a concrete merged table with
entities 1 (3 rows), 2 (1 row) and 3 (2 rows). -/
theorem three_entity_scenario_claim_witness :
    (∀ r ∈ survivors mWitness, r.wgms_id ≠ 2) ∧
    ∃ ts, to_timeseries mWitness 1 = .ok (ts, survivors mWitness) ∧
      ts.length = 2 ∧ (∀ plane ∈ ts, plane.length = 3) ∧
      ∃ _hc : (uids (survivors mWitness)).indexOf 3 < (uids (survivors mWitness)).length,
        ∀ f < 1,
          ((ts.getD ((uids (survivors mWitness)).indexOf 3) []).getD 2 []).getD f none =
            none :=
  three_entity_scenario_claim mWitness 1 2 3 1 (by decide) (by decide) (by decide)
    (by decide) (by decide) (by decide) (by decide) (by decide) (by decide)

/-- C8: no dedicated empty-result error exists in the code; whichever filter
step (all-feature-missing dropna, single-observation entity filter, or
single-entity year filter) eliminates all rows, `to_timeseries` fails with
the unrelated pandas `ValueError: No objects to concatenate` raised by
`pd.concat`, not with an `EmptyResultError`. -/
theorem to_timeseries_empty_result_behavior :
    to_timeseries [⟨7, 2001, [none]⟩, ⟨7, 2002, [none]⟩] 1 =
      .error .valueErrorNoObjectsToConcatenate ∧
    to_timeseries [⟨7, 2001, [some 5]⟩, ⟨8, 2001, [some 6]⟩] 1 =
      .error .valueErrorNoObjectsToConcatenate ∧
    to_timeseries [⟨7, 2001, [some 5]⟩, ⟨7, 2002, [some 6]⟩, ⟨8, 2003, [some 7]⟩] 1 =
      .error .valueErrorNoObjectsToConcatenate := by
  refine ⟨rfl, rfl, rfl⟩

/-! ### Observation tables and the cumulative aggregator -/

/-- A row of a raw observation table (change, state or mass balance), as
handed to the loaders: `WGMS_ID` and `YEAR` may be missing, and `vals` holds
the row's values at the variant's value columns. -/
structure RawObsRow where
  wgms_id : Option Int
  year : Option Int
  vals : List (Option Int)
deriving DecidableEq, Repr, Inhabited

/-- An observation row whose keys are known non-missing (the loaders drop
missing-key rows before further processing). -/
structure ObsRow where
  wgms_id : Int
  year : Int
  vals : List (Option Int)
deriving DecidableEq, Repr, Inhabited

/-- A row of `get_cumsum`'s output: after `groupby(...).sum()` every value
column is numeric and non-missing (a pandas group sum skips missing values
and yields 0 for an all-missing group). -/
structure CumRow where
  wgms_id : Int
  year : Int
  vals : List Int
deriving DecidableEq, Repr, Inhabited

/-- Lexicographic order on (WGMS_ID, YEAR) key pairs. -/
def keyLe (p q : Int × Int) : Prop :=
  p.1 < q.1 ∨ (p.1 = q.1 ∧ p.2 ≤ q.2)

instance : DecidableRel keyLe := fun p q => by
  unfold keyLe
  infer_instance

instance : IsTotal (Int × Int) keyLe := by
  constructor
  intro p q
  simp only [keyLe]
  rcases lt_trichotomy p.1 q.1 with h | h | h
  · exact Or.inl (Or.inl h)
  · rcases le_total p.2 q.2 with h2 | h2
    · exact Or.inl (Or.inr ⟨h, h2⟩)
    · exact Or.inr (Or.inr ⟨h.symm, h2⟩)
  · exact Or.inr (Or.inl h)

instance : IsTrans (Int × Int) keyLe := by
  constructor
  intro p q s hpq hqs
  simp only [keyLe] at hpq hqs ⊢
  rcases hpq with h1 | ⟨h1, h1b⟩ <;> rcases hqs with h2 | ⟨h2, h2b⟩
  · exact Or.inl (lt_trans h1 h2)
  · exact Or.inl (h2 ▸ h1)
  · exact Or.inl (h1 ▸ h2)
  · exact Or.inr ⟨h1.trans h2, le_trans h1b h2b⟩

/-- Ascending (YEAR, WGMS_ID) order on observation rows: the sort of
line 13 (and line 104). -/
def obsYearIdLe (r q : ObsRow) : Prop :=
  r.year < q.year ∨ (r.year = q.year ∧ r.wgms_id ≤ q.wgms_id)

instance : DecidableRel obsYearIdLe := fun r q => by
  unfold obsYearIdLe
  infer_instance

/-- Descending (WGMS_ID, YEAR) order on observation rows: the
`ascending=False` sort of line 100. -/
def obsIdYearDescLe (r q : ObsRow) : Prop :=
  q.wgms_id < r.wgms_id ∨ (q.wgms_id = r.wgms_id ∧ q.year ≤ r.year)

instance : DecidableRel obsIdYearDescLe := fun r q => by
  unfold obsIdYearDescLe
  infer_instance

/-- The distinct (WGMS_ID, YEAR) pairs of a table in ascending lexicographic
order: the group keys of `groupby(["WGMS_ID", "YEAR"])` (pandas sorts group
keys). -/
def obsKeys (t : List ObsRow) : List (Int × Int) :=
  List.insertionSort keyLe (t.map (fun r => (r.wgms_id, r.year))).dedup

/-- Column `f` of the skip-missing sum of a list of rows (pandas `sum()`
treats a missing cell as 0 and an all-missing column sums to 0). -/
def colSum (rows : List ObsRow) (f : Nat) : Int :=
  (rows.map (fun r => (r.vals.getD f none).getD 0)).sum

/-- `groupby(["WGMS_ID", "YEAR"]).sum()` over a table of `w` value columns:
one row per key pair, in ascending key order, value columns summed with
missing cells skipped. -/
def groupSum (w : Nat) (t : List ObsRow) : List CumRow :=
  (obsKeys t).map (fun p =>
    ⟨p.1, p.2, (List.range w).map
      (colSum (t.filter (fun r => r.wgms_id == p.1 && r.year == p.2)))⟩)

/-- `groupby(level=0).cumsum()`: each row's value vector becomes the
columnwise sum of the value vectors of the rows up to and including it that
share its WGMS_ID, in table order. -/
def cumsumPerId (rows : List CumRow) : List CumRow :=
  (List.range rows.length).map (fun j =>
    ⟨(rows.getD j default).wgms_id, (rows.getD j default).year,
      (List.range ((rows.getD j default).vals.length)).map (fun f =>
        (((rows.take (j + 1)).filter
          (fun r => r.wgms_id == (rows.getD j default).wgms_id)).map
            (fun r => r.vals.getD f 0)).sum)⟩)

/-- The sorted year-filtered table `df.loc[df["YEAR"] >= 2000,
cols].sort_values(["YEAR", "WGMS_ID"])` of line 13. -/
def cumBase (df : List ObsRow) : List ObsRow :=
  List.insertionSort obsYearIdLe (df.filter (fun r => 2000 ≤ r.year))

/-- Lines 11-14, `get_cumsum(df)` for a table of `w` numeric value columns:
keep rows with `YEAR >= 2000`, sort by (YEAR, WGMS_ID), sum duplicates per
(WGMS_ID, YEAR) group, and take the per-entity running sum in ascending
(WGMS_ID, YEAR) order. -/
def get_cumsum (w : Nat) (df : List ObsRow) : List CumRow :=
  cumsumPerId (groupSum w (cumBase df))

/-- Columnwise sum of two value vectors. -/
def vecAdd (xs ys : List Int) : List Int := List.zipWith (· + ·) xs ys

/-- The value vector `groupby(["WGMS_ID", "YEAR"]).sum()` assigns to the key
pair `(e, y)`: the per-column sum of the year-filtered rows with that key. -/
def keySum (w : Nat) (df : List ObsRow) (e y : Int) : List Int :=
  (List.range w).map
    (colSum ((df.filter (fun r => 2000 ≤ r.year)).filter
      (fun r => r.wgms_id == e && r.year == y)))

/-- Keep the raw rows with a non-missing WGMS_ID and strip the option from
both keys (a missing YEAR becomes 0 and is then removed by the year
filters). -/
def stripKeys (r : RawObsRow) : ObsRow :=
  ⟨r.wgms_id.getD 0, r.year.getD 0, r.vals⟩

/-- Lines 63-81, `load_change(change)`: drop rows with missing WGMS_ID, keep
rows with `YEAR >= 2000` projected to the three value columns
(AREA_CHANGE, THICKNESS_CHG, VOLUME_CHANGE), apply `get_cumsum`, and fill
missing values with 0 — a no-op here because the group sums are already
non-missing. -/
def load_change (change : List RawObsRow) : List CumRow :=
  get_cumsum 3
    (((change.filter (fun r => r.wgms_id.isSome)).map stripKeys).filter
      (fun r => 2000 ≤ r.year))

/-- Lines 39-60, `load_mass_balance(mass_balance)`: same shape as
`load_change`, over the three balance columns (WINTER_BALANCE,
SUMMER_BALANCE, ANNUAL_BALANCE). -/
def load_mass_balance (mass_balance : List RawObsRow) : List CumRow :=
  get_cumsum 3
    (((mass_balance.filter (fun r => r.wgms_id.isSome)).map stripKeys).filter
      (fun r => 2000 ≤ r.year))

/-- Strict lexicographic order on key pairs. -/
def keyLt (p q : Int × Int) : Prop :=
  p.1 < q.1 ∨ (p.1 = q.1 ∧ p.2 < q.2)

theorem getD_eq_get {α : Type} (l : List α) (d : α) {i : Nat} (hi : i < l.length) :
    l.getD i d = l.get ⟨i, hi⟩ := by
  show (l.get? i).getD d = _
  rw [List.get?_eq_get hi]
  rfl

theorem getD_map {α β : Type} (l : List α) (f : α → β) {i : Nat} (d : β) (d2 : α)
    (hi : i < l.length) : (l.map f).getD i d = f (l.getD i d2) := by
  show ((l.map f).get? i).getD d = f ((l.get? i).getD d2)
  rw [List.get?_map, List.get?_eq_get hi]
  rfl

theorem map_getD_range_eq {α : Type} (d : α) (l : List α) :
    (List.range l.length).map (fun i => l.getD i d) = l := by
  apply List.ext_get
  · simp
  · intro i h1 h2
    calc ((List.range l.length).map fun k => l.getD k d).get ⟨i, h1⟩
        = ((List.range l.length).map fun k => l.getD k d).getD i d :=
          (getD_eq_get _ d h1).symm
      _ = l.getD i d := getD_map_range _ d h2
      _ = l.get ⟨i, h2⟩ := getD_eq_get _ d h2

theorem map_getD_range_eq_of_length {α : Type} (d : α) (l : List α) {n : Nat}
    (hn : l.length = n) : (List.range n).map (fun i => l.getD i d) = l := by
  subst hn
  exact map_getD_range_eq d l

theorem nodup_obsKeys (t : List ObsRow) : (obsKeys t).Nodup := by
  rw [obsKeys]
  exact (List.Perm.nodup_iff (List.perm_insertionSort _ _)).2 (List.nodup_dedup _)

theorem mem_obsKeys {t : List ObsRow} {p : Int × Int} :
    p ∈ obsKeys t ↔ p ∈ t.map (fun r => (r.wgms_id, r.year)) := by
  rw [obsKeys, (List.perm_insertionSort _ _).mem_iff, List.mem_dedup]

theorem pairwise_keyLt_obsKeys (t : List ObsRow) : (obsKeys t).Pairwise keyLt := by
  have hs : (obsKeys t).Pairwise keyLe := List.sorted_insertionSort keyLe _
  have hn : (obsKeys t).Pairwise (· ≠ ·) := nodup_obsKeys t
  refine (hs.and hn).imp ?_
  rintro p q ⟨hle, hne⟩
  rcases hle with h1 | ⟨h1, h1b⟩
  · exact Or.inl h1
  · rcases lt_or_eq_of_le h1b with h2 | h2
    · exact Or.inr ⟨h1, h2⟩
    · exact absurd (Prod.ext h1 h2) hne

/-- Ids are nondecreasing along the sorted key list. -/
theorem obsKeys_fst_mono {ks : List (Int × Int)} (hp : ks.Pairwise keyLt)
    {i j : Nat} (hij : i ≤ j) (hj : j < ks.length) :
    (ks.getD i (0, 0)).1 ≤ (ks.getD j (0, 0)).1 := by
  rcases lt_or_eq_of_le hij with h1 | h1
  · have hi : i < ks.length := lt_trans h1 hj
    have := (List.pairwise_iff_get.1 hp) ⟨i, hi⟩ ⟨j, hj⟩ h1
    rw [getD_eq_get _ _ hi, getD_eq_get _ _ hj]
    rcases this with h2 | ⟨h2, -⟩
    · exact le_of_lt h2
    · exact le_of_eq h2
  · rw [h1]

theorem length_groupSum (w : Nat) (t : List ObsRow) :
    (groupSum w t).length = (obsKeys t).length := by
  simp [groupSum]

theorem groupSum_getD (w : Nat) (t : List ObsRow) {j : Nat}
    (hj : j < (obsKeys t).length) :
    (groupSum w t).getD j default =
      ⟨((obsKeys t).getD j (0, 0)).1, ((obsKeys t).getD j (0, 0)).2,
        (List.range w).map
          (colSum (t.filter (fun r =>
            r.wgms_id == ((obsKeys t).getD j (0, 0)).1 &&
            r.year == ((obsKeys t).getD j (0, 0)).2)))⟩ := by
  rw [groupSum, getD_map _ _ _ (0, 0) hj]

theorem length_cumsumPerId (rows : List CumRow) :
    (cumsumPerId rows).length = rows.length := by
  simp [cumsumPerId]

theorem cumsumPerId_getD (rows : List CumRow) {j : Nat} (hj : j < rows.length) :
    (cumsumPerId rows).getD j default =
      ⟨(rows.getD j default).wgms_id, (rows.getD j default).year,
        (List.range ((rows.getD j default).vals.length)).map (fun f =>
          (((rows.take (j + 1)).filter
            (fun r => r.wgms_id == (rows.getD j default).wgms_id)).map
              (fun r => r.vals.getD f 0)).sum)⟩ := by
  rw [cumsumPerId, getD_map_range _ _ hj]

/-- Sorting the year-filtered table does not change a key group's column
sums. -/
theorem colSum_sorted_filter (df : List ObsRow) (e y : Int) (f : Nat) :
    colSum ((cumBase df).filter (fun r => r.wgms_id == e && r.year == y)) f =
    colSum ((df.filter (fun r => 2000 ≤ r.year)).filter
      (fun r => r.wgms_id == e && r.year == y)) f := by
  unfold colSum cumBase
  exact (((List.perm_insertionSort _ _).filter _).map _).sum_eq

/-- Lines 84-105, `load_state(state)`: drop rows with missing WGMS_ID, sort
by (WGMS_ID, YEAR) descending, keep rows with `YEAR >= 2000` projected to
the five value columns (AREA, LENGTH, HIGHEST/MEDIAN/LOWEST_ELEVATION), and
sort by (YEAR, WGMS_ID) ascending.  No cumulative sum and no missing-value
fill is applied to this table. -/
def load_state (state : List RawObsRow) : List ObsRow :=
  List.insertionSort obsYearIdLe
    ((List.insertionSort obsIdYearDescLe
      ((state.filter (fun r => r.wgms_id.isSome)).map stripKeys)).filter
        (fun r => 2000 ≤ r.year))

/-! ### Structure of the cumulative aggregator -/

theorem get_take_eq {α : Type} (l : List α) {j k : Nat} (hk1 : k < (l.take j).length)
    (hk2 : k < l.length) : (l.take j).get ⟨k, hk1⟩ = l.get ⟨k, hk2⟩ := by
  rw [List.get_eq_getElem, List.get_eq_getElem]
  exact List.getElem_take l

theorem filter_take_eq_nil {α : Type} [Inhabited α] {rows : List α} {p : α → Bool}
    {j : Nat} (h : ∀ k, k < j → k < rows.length → p (rows.getD k default) = false) :
    (rows.take j).filter p = [] := by
  apply List.filter_eq_nil_iff.2
  intro r hr
  rcases List.mem_iff_get.1 hr with ⟨⟨k, hk⟩, hget⟩
  have hkj : k < j := by
    have h2 := hk
    rw [List.length_take] at h2
    omega
  have hklen : k < rows.length := by
    have h2 := hk
    rw [List.length_take] at h2
    omega
  have hval : rows.getD k default = r := by
    rw [getD_eq_get _ _ hklen, ← get_take_eq rows hk hklen, hget]
  intro hcon
  have h3 := h k hkj hklen
  rw [hval, hcon] at h3
  cases h3

theorem take_succ_filter {α : Type} [Inhabited α] (rows : List α) (p : α → Bool)
    {j : Nat} (hj : j < rows.length) (hp : p (rows.getD j default) = true) :
    (rows.take (j + 1)).filter p = (rows.take j).filter p ++ [rows.getD j default] := by
  have h1 : rows[j]? = some (rows.getD j default) := by
    rw [List.getElem?_eq_getElem hj]
    congr 1
    rw [getD_eq_get _ _ hj, List.get_eq_getElem]
  rw [List.take_succ, h1, List.filter_append]
  congr 1
  show List.filter p [rows.getD j default] = _
  rw [List.filter_singleton, hp]
  rfl

theorem zipWith_map_same {α β : Type} (f : β → β → β) (g h : α → β) (l : List α) :
    List.zipWith f (l.map g) (l.map h) = l.map (fun a => f (g a) (h a)) := by
  induction l with
  | nil => rfl
  | cons a l ih => simp [ih]

theorem cumBase_year (df : List ObsRow) : ∀ r ∈ cumBase df, 2000 ≤ r.year := by
  intro r hr
  rw [cumBase, (List.perm_insertionSort _ _).mem_iff] at hr
  rcases List.mem_filter.1 hr with ⟨-, hy⟩
  exact of_decide_eq_true hy

theorem obsKeys_year {df : List ObsRow} {p : Int × Int}
    (hp : p ∈ obsKeys (cumBase df)) : 2000 ≤ p.2 := by
  rw [mem_obsKeys, List.mem_map] at hp
  rcases hp with ⟨r, hr, hrp⟩
  have := cumBase_year df r hr
  rw [← hrp]
  exact this

theorem get_cumsum_length (w : Nat) (df : List ObsRow) :
    (get_cumsum w df).length = (obsKeys (cumBase df)).length := by
  rw [get_cumsum, length_cumsumPerId, length_groupSum]

theorem get_cumsum_key (w : Nat) (df : List ObsRow) {j : Nat}
    (hj : j < (obsKeys (cumBase df)).length) :
    ((get_cumsum w df).getD j default).wgms_id =
      ((obsKeys (cumBase df)).getD j (0, 0)).1 ∧
    ((get_cumsum w df).getD j default).year =
      ((obsKeys (cumBase df)).getD j (0, 0)).2 := by
  have hj2 : j < (groupSum w (cumBase df)).length := by
    rw [length_groupSum]
    exact hj
  rw [get_cumsum, cumsumPerId_getD _ hj2, groupSum_getD w _ hj]
  exact ⟨rfl, rfl⟩

theorem get_cumsum_vals_formula (w : Nat) (df : List ObsRow) {j : Nat}
    (hj : j < (obsKeys (cumBase df)).length) :
    ((get_cumsum w df).getD j default).vals =
      (List.range w).map (fun f =>
        ((((groupSum w (cumBase df)).take (j + 1)).filter
          (fun r => r.wgms_id == ((obsKeys (cumBase df)).getD j (0, 0)).1)).map
            (fun r => r.vals.getD f 0)).sum) := by
  have hj2 : j < (groupSum w (cumBase df)).length := by
    rw [length_groupSum]
    exact hj
  rw [get_cumsum, cumsumPerId_getD _ hj2, groupSum_getD w _ hj]
  simp only [List.length_map, List.length_range]

theorem groupSum_vals_eq_keySum (w : Nat) (df : List ObsRow) {j : Nat}
    (hj : j < (obsKeys (cumBase df)).length) :
    ((groupSum w (cumBase df)).getD j default).vals =
      keySum w df ((obsKeys (cumBase df)).getD j (0, 0)).1
        ((obsKeys (cumBase df)).getD j (0, 0)).2 := by
  rw [groupSum_getD w _ hj, keySum]
  apply List.map_congr_left
  intro f _
  exact colSum_sorted_filter df _ _ f

theorem groupSum_vals_length (w : Nat) (t : List ObsRow) {j : Nat}
    (hj : j < (obsKeys t).length) :
    ((groupSum w t).getD j default).vals.length = w := by
  rw [groupSum_getD w t hj]
  simp

theorem no_earlier_same_key_fst (w : Nat) (df : List ObsRow) {j : Nat}
    (hj : j < (obsKeys (cumBase df)).length)
    (hstart : j = 0 ∨ ((get_cumsum w df).getD (j - 1) default).wgms_id ≠
      ((get_cumsum w df).getD j default).wgms_id) :
    ∀ k, k < j → ((obsKeys (cumBase df)).getD k (0, 0)).1 ≠
      ((obsKeys (cumBase df)).getD j (0, 0)).1 := by
  intro k hk heq
  rcases hstart with h0 | hne
  · omega
  · have hj1 : j - 1 < (obsKeys (cumBase df)).length := by omega
    have hkey1 := get_cumsum_key w df hj1
    have hkeyj := get_cumsum_key w df hj
    apply hne
    rw [hkey1.1, hkeyj.1]
    have hmono1 : ((obsKeys (cumBase df)).getD k (0, 0)).1 ≤
        ((obsKeys (cumBase df)).getD (j - 1) (0, 0)).1 :=
      obsKeys_fst_mono (pairwise_keyLt_obsKeys _) (by omega) hj1
    have hmono2 : ((obsKeys (cumBase df)).getD (j - 1) (0, 0)).1 ≤
        ((obsKeys (cumBase df)).getD j (0, 0)).1 :=
      obsKeys_fst_mono (pairwise_keyLt_obsKeys _) (by omega) hj
    omega

/-- Strict (WGMS_ID, YEAR) order on output rows: rows grouped by entity with
years strictly increasing inside an entity's block. -/
def cumRowLt (r q : CumRow) : Prop :=
  r.wgms_id < q.wgms_id ∨ (r.wgms_id = q.wgms_id ∧ r.year < q.year)

/-- The aggregator only emits years at or after the cutoff. -/
theorem get_cumsum_year (w : Nat) (df : List ObsRow) :
    ∀ r ∈ get_cumsum w df, 2000 ≤ r.year := by
  intro r hr
  rcases List.mem_iff_get.1 hr with ⟨⟨j, hj⟩, hget⟩
  have hjks : j < (obsKeys (cumBase df)).length := by
    rw [← get_cumsum_length w df]
    exact hj
  have hkey := get_cumsum_key w df hjks
  have hyr : r.year = ((obsKeys (cumBase df)).getD j (0, 0)).2 := by
    rw [← hget, ← getD_eq_get _ default hj]
    exact hkey.2
  rw [hyr]
  apply obsKeys_year
  rw [getD_eq_get _ (0, 0) hjks]
  exact List.get_mem _ _ _

/-- The aggregator output is strictly sorted by (WGMS_ID, YEAR): grouped by
entity, with years increasing inside each entity block. -/
theorem get_cumsum_pairwise (w : Nat) (df : List ObsRow) :
    (get_cumsum w df).Pairwise cumRowLt := by
  rw [List.pairwise_iff_get]
  intro i j hij
  have hiks : i.1 < (obsKeys (cumBase df)).length := by
    rw [← get_cumsum_length w df]
    exact i.2
  have hjks : j.1 < (obsKeys (cumBase df)).length := by
    rw [← get_cumsum_length w df]
    exact j.2
  have hkt := (List.pairwise_iff_get.1 (pairwise_keyLt_obsKeys (cumBase df)))
    ⟨i.1, hiks⟩ ⟨j.1, hjks⟩ hij
  have hki := get_cumsum_key w df hiks
  have hkj := get_cumsum_key w df hjks
  rw [← getD_eq_get _ (0, 0) hiks, ← getD_eq_get _ (0, 0) hjks] at hkt
  rw [cumRowLt, ← getD_eq_get _ default i.2, ← getD_eq_get _ default j.2,
    hki.1, hki.2, hkj.1, hkj.2]
  exact hkt

/-- The running sum resets per entity: the first row of an entity block
carries its plain (entity, year) group sum. -/
theorem get_cumsum_reset (w : Nat) (df : List ObsRow) :
    ∀ j, j < (get_cumsum w df).length →
      (j = 0 ∨ ((get_cumsum w df).getD (j - 1) default).wgms_id ≠
        ((get_cumsum w df).getD j default).wgms_id) →
      ((get_cumsum w df).getD j default).vals =
        keySum w df (((get_cumsum w df).getD j default).wgms_id)
          (((get_cumsum w df).getD j default).year) := by
  intro j hjlen hstart
  have hjks : j < (obsKeys (cumBase df)).length := by
    rw [← get_cumsum_length w df]
    exact hjlen
  have hjrows : j < (groupSum w (cumBase df)).length := by
    rw [length_groupSum]
    exact hjks
  have hne := no_earlier_same_key_fst w df hjks hstart
  have hflt : ((groupSum w (cumBase df)).take j).filter
      (fun r => r.wgms_id == ((obsKeys (cumBase df)).getD j (0, 0)).1) = [] := by
    apply filter_take_eq_nil
    intro k hk hk2
    have hkks : k < (obsKeys (cumBase df)).length := by
      rw [length_groupSum] at hk2
      exact hk2
    rw [groupSum_getD w _ hkks]
    rw [beq_eq_false_iff_ne]
    exact hne k hk
  have hpred : (((groupSum w (cumBase df)).getD j default).wgms_id ==
      ((obsKeys (cumBase df)).getD j (0, 0)).1) = true := by
    rw [groupSum_getD w _ hjks]
    exact beq_self_eq_true _
  have hsingle : ((groupSum w (cumBase df)).take (j + 1)).filter
      (fun r => r.wgms_id == ((obsKeys (cumBase df)).getD j (0, 0)).1) =
      [(groupSum w (cumBase df)).getD j default] := by
    rw [take_succ_filter _ _ hjrows hpred, hflt]
    rfl
  rw [get_cumsum_vals_formula w df hjks, hsingle]
  have hstep : (List.range w).map (fun f =>
      (([(groupSum w (cumBase df)).getD j default]).map
        (fun r => r.vals.getD f 0)).sum) =
      (List.range w).map (fun f =>
        ((groupSum w (cumBase df)).getD j default).vals.getD f 0) := by
    apply List.map_congr_left
    intro f _
    simp
  rw [hstep]
  have hvl := groupSum_vals_length w (cumBase df) hjks
  rw [map_getD_range_eq_of_length 0 _ hvl, groupSum_vals_eq_keySum w df hjks,
    (get_cumsum_key w df hjks).1, (get_cumsum_key w df hjks).2]

/-- The running step: inside an entity block, each row carries the previous
row's value plus its own (entity, year) group sum. -/
theorem get_cumsum_step (w : Nat) (df : List ObsRow) :
    ∀ j, j + 1 < (get_cumsum w df).length →
      ((get_cumsum w df).getD j default).wgms_id =
        ((get_cumsum w df).getD (j + 1) default).wgms_id →
      ((get_cumsum w df).getD (j + 1) default).vals =
        vecAdd (((get_cumsum w df).getD j default).vals)
          (keySum w df (((get_cumsum w df).getD (j + 1) default).wgms_id)
            (((get_cumsum w df).getD (j + 1) default).year)) := by
  intro j hj1len hid
  have hj1ks : j + 1 < (obsKeys (cumBase df)).length := by
    rw [← get_cumsum_length w df]
    exact hj1len
  have hjks : j < (obsKeys (cumBase df)).length := by omega
  have hj1rows : j + 1 < (groupSum w (cumBase df)).length := by
    rw [length_groupSum]
    exact hj1ks
  have hidks : ((obsKeys (cumBase df)).getD j (0, 0)).1 =
      ((obsKeys (cumBase df)).getD (j + 1) (0, 0)).1 := by
    have h1 := (get_cumsum_key w df hjks).1
    have h2 := (get_cumsum_key w df hj1ks).1
    rw [h1, h2] at hid
    exact hid
  have hpred : (((groupSum w (cumBase df)).getD (j + 1) default).wgms_id ==
      ((obsKeys (cumBase df)).getD (j + 1) (0, 0)).1) = true := by
    rw [groupSum_getD w _ hj1ks]
    exact beq_self_eq_true _
  have hsplit := take_succ_filter (groupSum w (cumBase df))
    (fun r => r.wgms_id == ((obsKeys (cumBase df)).getD (j + 1) (0, 0)).1)
    hj1rows hpred
  rw [get_cumsum_vals_formula w df hj1ks, hsplit, ← hidks]
  have hkey1 := groupSum_vals_eq_keySum w df hj1ks
  rw [get_cumsum_vals_formula w df hjks,
    (get_cumsum_key w df hj1ks).1, (get_cumsum_key w df hj1ks).2, ← hkey1,
    groupSum_getD w _ hj1ks]
  rw [vecAdd, zipWith_map_same]
  apply List.map_congr_left
  intro f hf
  rw [List.map_append, List.sum_append]
  congr 1
  rw [List.map_singleton, List.sum_singleton]
  exact getD_map_range _ 0 (List.mem_range.1 hf)

/-- C3: the cumulative aggregator retains only rows with `YEAR >= 2000`,
emits one row per (entity, year) grouped by entity with years increasing
inside each entity block, assigns an entity's first row its plain group sum
(the running sum resets independently per entity) and each following row the
previous row's value plus the new (entity, year) group sum; for observation
values [2, 3, -1] across three increasing years at or after the cutoff the
output values are [2, 5, 4] in year order. -/
theorem get_cumsum_claim (w : Nat) (df : List ObsRow) :
    (∀ r ∈ get_cumsum w df, 2000 ≤ r.year) ∧
    (get_cumsum w df).Pairwise cumRowLt ∧
    (∀ j, j < (get_cumsum w df).length →
      (j = 0 ∨ ((get_cumsum w df).getD (j - 1) default).wgms_id ≠
        ((get_cumsum w df).getD j default).wgms_id) →
      ((get_cumsum w df).getD j default).vals =
        keySum w df (((get_cumsum w df).getD j default).wgms_id)
          (((get_cumsum w df).getD j default).year)) ∧
    (∀ j, j + 1 < (get_cumsum w df).length →
      ((get_cumsum w df).getD j default).wgms_id =
        ((get_cumsum w df).getD (j + 1) default).wgms_id →
      ((get_cumsum w df).getD (j + 1) default).vals =
        vecAdd (((get_cumsum w df).getD j default).vals)
          (keySum w df (((get_cumsum w df).getD (j + 1) default).wgms_id)
            (((get_cumsum w df).getD (j + 1) default).year))) ∧
    get_cumsum 1 [⟨5, 2000, [some 2]⟩, ⟨5, 2001, [some 3]⟩, ⟨5, 2002, [some (-1)]⟩] =
      [⟨5, 2000, [2]⟩, ⟨5, 2001, [5]⟩, ⟨5, 2002, [4]⟩] :=
  ⟨get_cumsum_year w df, get_cumsum_pairwise w df, get_cumsum_reset w df,
    get_cumsum_step w df, by decide⟩

/-- A concrete observation table used by the aggregator witnesses. -/
def dfWitness : List ObsRow :=
  [⟨5, 2000, [some 2]⟩, ⟨5, 2001, [some 3]⟩, ⟨5, 2002, [some (-1)]⟩]

/-- Witness for C3: the reset clause of the claim instantiated at the first
row of a concrete table. -/
theorem get_cumsum_claim_witness :
    ((get_cumsum 1 dfWitness).getD 0 default).vals =
      keySum 1 dfWitness (((get_cumsum 1 dfWitness).getD 0 default).wgms_id)
        (((get_cumsum 1 dfWitness).getD 0 default).year) :=
  (get_cumsum_claim 1 dfWitness).2.2.1 0 (by decide) (Or.inl rfl)

/-- Every state-loader output row is a raw row passed through unmodified:
year at or after the cutoff, keys non-missing, values untouched. -/
theorem load_state_mem {st : List RawObsRow} {r : ObsRow} (hr : r ∈ load_state st) :
    2000 ≤ r.year ∧ ∃ raw ∈ st, raw.wgms_id = some r.wgms_id ∧
      raw.year = some r.year ∧ raw.vals = r.vals := by
  rw [load_state, (List.perm_insertionSort _ _).mem_iff] at hr
  rcases List.mem_filter.1 hr with ⟨hr2, hy⟩
  have hyear : 2000 ≤ r.year := of_decide_eq_true hy
  rw [(List.perm_insertionSort _ _).mem_iff] at hr2
  rcases List.mem_map.1 hr2 with ⟨raw, hraw, hstrip⟩
  rcases List.mem_filter.1 hraw with ⟨hrawt, hrawid⟩
  refine ⟨hyear, raw, hrawt, ?_, ?_, ?_⟩
  · rcases Option.isSome_iff_exists.1 hrawid with ⟨v, hv⟩
    rw [← hstrip]
    simp [stripKeys, hv]
  · cases hy2 : raw.year with
    | none =>
      exfalso
      rw [← hstrip] at hyear
      simp [stripKeys, hy2] at hyear
    | some y =>
      rw [← hstrip]
      simp [stripKeys, hy2]
  · rw [← hstrip]
    rfl

/-- C4 (amended): under the time-series loading policy, the change and
mass-balance loaders emit only rows at or after the year cutoff, with
per-entity cumulative sums over the numeric columns and no missing numeric
value (the group sums fill them with 0); the state loader, however, only
drops missing-id rows, filters to the cutoff and re-sorts — its values are
passed through raw, with no cumulative sum and missing values left
unfilled. -/
theorem loaders_time_series_claim (change mb st : List RawObsRow) :
    (∀ r ∈ load_change change, 2000 ≤ r.year) ∧
    (∀ j, j + 1 < (load_change change).length →
      ((load_change change).getD j default).wgms_id =
        ((load_change change).getD (j + 1) default).wgms_id →
      ((load_change change).getD (j + 1) default).vals =
        vecAdd (((load_change change).getD j default).vals)
          (keySum 3 (((change.filter (fun r => r.wgms_id.isSome)).map stripKeys).filter
            (fun r => 2000 ≤ r.year))
            (((load_change change).getD (j + 1) default).wgms_id)
            (((load_change change).getD (j + 1) default).year))) ∧
    (∀ r ∈ load_mass_balance mb, 2000 ≤ r.year) ∧
    (∀ r ∈ load_state st, 2000 ≤ r.year) ∧
    (∀ r ∈ load_state st, ∃ raw ∈ st, raw.wgms_id = some r.wgms_id ∧
      raw.year = some r.year ∧ raw.vals = r.vals) := by
  refine ⟨get_cumsum_year 3 _, get_cumsum_step 3 _, get_cumsum_year 3 _, ?_, ?_⟩
  · intro r hr
    exact (load_state_mem hr).1
  · intro r hr
    exact (load_state_mem hr).2

/-- C4 counterexample: the state loader keeps missing numeric values — its
output is not missing-free (and, as the second conjunct shows on a two-year
entity, its values are not cumulative sums either). -/
theorem load_state_missing_value_counterexample :
    (∃ r ∈ load_state [⟨some 1, some 2005, [none, some 3]⟩], none ∈ r.vals) ∧
    load_state [⟨some 1, some 2000, [some 2]⟩, ⟨some 1, some 2001, [some 3]⟩] =
      [⟨1, 2000, [some 2]⟩, ⟨1, 2001, [some 3]⟩] :=
  ⟨by decide, by decide⟩

/-- A concrete raw change table used by the loader witnesses. -/
def changeWitness : List RawObsRow :=
  [⟨some 1, some 2000, [some 2, none, none]⟩, ⟨some 1, some 2001, [some 3, none, none]⟩]

/-- Witness for C4: the cumulative-step clause instantiated on a concrete
change table. -/
theorem loaders_time_series_claim_witness :
    ((load_change changeWitness).getD 1 default).vals =
      vecAdd (((load_change changeWitness).getD 0 default).vals)
        (keySum 3 (((changeWitness.filter (fun r => r.wgms_id.isSome)).map
          stripKeys).filter (fun r => 2000 ≤ r.year))
          (((load_change changeWitness).getD 1 default).wgms_id)
          (((load_change changeWitness).getD 1 default).year)) :=
  (loaders_time_series_claim changeWitness [] []).2.1 0 (by decide) (by decide)

/-! ### The merger -/

/-- A loaded glacier row as consumed by `merge_data`: the entity identifier
plus the five attribute columns (LATITUDE, LONGITUDE, PRIM_CLASSIFIC, FORM,
FRONTAL_CHARS), all non-missing after `load_glacier`. -/
structure GlacierRow where
  wgms_id : Int
  lat : Int
  lon : Int
  prim : Int
  form : Int
  frontal : Int
deriving DecidableEq, Repr, Inhabited

/-- A row of `merge_data`'s output: the (WGMS_ID, YEAR) key plus the column
blocks contributed by each source, `none` when the source has no matching
row (pandas leaves those columns NaN after an outer merge). -/
structure MergedDataRow where
  wgms_id : Int
  year : Int
  glac : Option (Int × Int × Int × Int × Int)
  chg : Option (List Int)
  st : Option (List (Option Int))
  mb : Option (List Int)
deriving DecidableEq, Repr, Inhabited

/-- Line 132, `loaded_glacier.merge(loaded_change, on="WGMS_ID",
how="right")`: every change row is kept, in change-table order, paired with
each matching glacier row; when no glacier matches, the glacier columns are
left missing. -/
def mergeGlacierChange (g : List GlacierRow) (c : List CumRow) : List MergedDataRow :=
  c.flatMap (fun cr =>
    let ms := g.filter (fun gr => gr.wgms_id == cr.wgms_id)
    if ms.isEmpty then
      [⟨cr.wgms_id, cr.year, none, some cr.vals, none, none⟩]
    else
      ms.map (fun gr =>
        ⟨cr.wgms_id, cr.year, some (gr.lat, gr.lon, gr.prim, gr.form, gr.frontal),
          some cr.vals, none, none⟩))

/-- Line 133, `merged_data.merge(loaded_state, on=["WGMS_ID", "YEAR"],
how="outer")`: matched rows gain the state columns, unmatched left rows keep
them missing, and unmatched state rows are appended with every other column
block missing.  (pandas sorts an outer merge by the join keys; no claim here
depends on the row order of the merged table, so the left-then-right order
stands in for it.) -/
def mergeState (m : List MergedDataRow) (s : List ObsRow) : List MergedDataRow :=
  (m.flatMap (fun mr =>
    let ms := s.filter (fun sr => sr.wgms_id == mr.wgms_id && sr.year == mr.year)
    if ms.isEmpty then [mr]
    else ms.map (fun sr => { mr with st := some sr.vals })))
  ++ ((s.filter (fun sr =>
      !(m.any (fun mr => mr.wgms_id == sr.wgms_id && mr.year == sr.year)))).map
    (fun sr => ⟨sr.wgms_id, sr.year, none, none, some sr.vals, none⟩))

/-- Line 134, the outer merge with the mass-balance table on
(WGMS_ID, YEAR). -/
def mergeMassBalance (m : List MergedDataRow) (b : List CumRow) : List MergedDataRow :=
  (m.flatMap (fun mr =>
    let ms := b.filter (fun br => br.wgms_id == mr.wgms_id && br.year == mr.year)
    if ms.isEmpty then [mr]
    else ms.map (fun br => { mr with mb := some br.vals })))
  ++ ((b.filter (fun br =>
      !(m.any (fun mr => mr.wgms_id == br.wgms_id && mr.year == br.year)))).map
    (fun br => ⟨br.wgms_id, br.year, none, none, none, some br.vals⟩))

/-- Lines 108-136, `merge_data(loaded_glacier, loaded_change, loaded_state,
loaded_mass_balance)`. -/
def merge_data (g : List GlacierRow) (c : List CumRow) (s : List ObsRow)
    (b : List CumRow) : List MergedDataRow :=
  mergeMassBalance (mergeState (mergeGlacierChange g c) s) b

theorem mergeGlacierChange_nullglac {g : List GlacierRow} {c : List CumRow}
    {cr : CumRow} (hcr : cr ∈ c) (hno : ∀ gr ∈ g, gr.wgms_id ≠ cr.wgms_id) :
    (⟨cr.wgms_id, cr.year, none, some cr.vals, none, none⟩ : MergedDataRow) ∈
      mergeGlacierChange g c := by
  rw [mergeGlacierChange, List.mem_flatMap]
  refine ⟨cr, hcr, ?_⟩
  have hms : g.filter (fun gr => gr.wgms_id == cr.wgms_id) = [] := by
    apply List.filter_eq_nil_iff.2
    intro gr hgr
    rw [beq_iff_eq]
    exact hno gr hgr
  rw [hms]
  simp

theorem mergeState_preserves {m : List MergedDataRow} {s : List ObsRow}
    {mr : MergedDataRow} (hmr : mr ∈ m) :
    ∃ row ∈ mergeState m s, row.wgms_id = mr.wgms_id ∧ row.glac = mr.glac := by
  by_cases hms : (s.filter
      (fun sr => sr.wgms_id == mr.wgms_id && sr.year == mr.year)).isEmpty = true
  · refine ⟨mr, ?_, rfl, rfl⟩
    apply List.mem_append_left
    rw [List.mem_flatMap]
    refine ⟨mr, hmr, ?_⟩
    rw [if_pos hms]
    exact List.mem_singleton_self _
  · have hne : (s.filter
        (fun sr => sr.wgms_id == mr.wgms_id && sr.year == mr.year)).isEmpty = false :=
      Bool.eq_false_iff.2 hms
    rcases List.isEmpty_eq_false_iff_exists_mem.1 hne with ⟨sr, hsr⟩
    refine ⟨{ mr with st := some sr.vals }, ?_, rfl, rfl⟩
    apply List.mem_append_left
    rw [List.mem_flatMap]
    refine ⟨mr, hmr, ?_⟩
    rw [if_neg hms]
    exact List.mem_map.2 ⟨sr, hsr, rfl⟩

theorem mergeMassBalance_preserves {m : List MergedDataRow} {b : List CumRow}
    {mr : MergedDataRow} (hmr : mr ∈ m) :
    ∃ row ∈ mergeMassBalance m b, row.wgms_id = mr.wgms_id ∧ row.glac = mr.glac := by
  by_cases hms : (b.filter
      (fun br => br.wgms_id == mr.wgms_id && br.year == mr.year)).isEmpty = true
  · refine ⟨mr, ?_, rfl, rfl⟩
    apply List.mem_append_left
    rw [List.mem_flatMap]
    refine ⟨mr, hmr, ?_⟩
    rw [if_pos hms]
    exact List.mem_singleton_self _
  · have hne : (b.filter
        (fun br => br.wgms_id == mr.wgms_id && br.year == mr.year)).isEmpty = false :=
      Bool.eq_false_iff.2 hms
    rcases List.isEmpty_eq_false_iff_exists_mem.1 hne with ⟨br, hbr⟩
    refine ⟨{ mr with mb := some br.vals }, ?_, rfl, rfl⟩
    apply List.mem_append_left
    rw [List.mem_flatMap]
    refine ⟨mr, hmr, ?_⟩
    rw [if_neg hms]
    exact List.mem_map.2 ⟨br, hbr, rfl⟩

/-- C5 (amended): an entity identifier that appears in the loaded change
table but not in the loaded glacier table is present in the output of
`merge_data` — the right join keeps every change row, leaving the glacier
attribute columns missing for it. -/
theorem merge_right_join_claim (g : List GlacierRow) (c : List CumRow)
    (s : List ObsRow) (b : List CumRow) :
    ∀ cr ∈ c, (∀ gr ∈ g, gr.wgms_id ≠ cr.wgms_id) →
      ∃ row ∈ merge_data g c s b, row.wgms_id = cr.wgms_id ∧ row.glac = none := by
  intro cr hcr hno
  have h1 := mergeGlacierChange_nullglac hcr hno
  rcases mergeState_preserves (s := s) h1 with ⟨r2, hr2, hid2, hglac2⟩
  rcases mergeMassBalance_preserves (b := b) hr2 with ⟨r3, hr3, hid3, hglac3⟩
  refine ⟨r3, hr3, ?_, ?_⟩
  · rw [hid3, hid2]
  · rw [hglac3, hglac2]

/-- C5 counterexample: entity 2 appears in the loaded change table and not
in the loaded glacier table, yet the merged table contains a row for it —
the claim that such an entity is absent from `merge_data`'s output is
false. -/
theorem merge_right_join_counterexample :
    ∃ row ∈ merge_data [⟨1, 46, 8, 4, 1, 2⟩] [⟨2, 2000, [7, 0, 0]⟩] [] [],
      row.wgms_id = 2 := by
  decide

/-- Witness for C5 at concrete loaded tables. -/
theorem merge_right_join_claim_witness :
    ∃ row ∈ merge_data [⟨1, 46, 8, 4, 1, 2⟩] [⟨2, 2000, [7, 0, 0]⟩] [] [],
      row.wgms_id = (⟨2, 2000, [7, 0, 0]⟩ : CumRow).wgms_id ∧ row.glac = none :=
  merge_right_join_claim [⟨1, 46, 8, 4, 1, 2⟩] [⟨2, 2000, [7, 0, 0]⟩] [] []
    ⟨2, 2000, [7, 0, 0]⟩ (by decide) (by decide)

/-! ### The glacier loader -/

/-- The value of column `c` in a raw glacier row, modelled as an association
list from column name to possibly-missing value (the raw table carries many
more columns than the six the loader keeps; a column the row does not list
reads as missing). -/
def colVal (r : List (String × Option Int)) (c : String) : Option Int :=
  (List.lookup c r).getD none

/-- Line 31, `glacier.drop_duplicates(subset=["WGMS_ID"])`: keep the first
row per WGMS_ID value (pandas `duplicated` treats missing keys as equal to
each other). -/
def dropDupById : List (List (String × Option Int)) → List (List (String × Option Int))
  | [] => []
  | r :: rest =>
    r :: dropDupById
      (rest.filter (fun s => !(colVal s "WGMS_ID" == colVal r "WGMS_ID")))
termination_by l => l.length
decreasing_by
  exact Nat.lt_succ_of_le (List.length_filter_le _ _)

/-- The key columns `dropna` requires (line 32). -/
def glacierRequiredCols : List String := ["WGMS_ID", "LATITUDE", "LONGITUDE"]

/-- The classification columns `fillna` targets (lines 33-34). -/
def glacierClassCols : List String := ["PRIM_CLASSIFIC", "FORM", "FRONTAL_CHARS"]

/-- The six documented output columns (line 35). -/
def glacierKeptCols : List String :=
  ["WGMS_ID", "LATITUDE", "LONGITUDE", "PRIM_CLASSIFIC", "FORM", "FRONTAL_CHARS"]

/-- Line 34, `fillna({"PRIM_CLASSIFIC": 99, "FORM": 99, "FRONTAL_CHARS": 99})`:
replace a missing value in the three classification columns with the
sentinel category 99. -/
def fillClass (r : List (String × Option Int)) : List (String × Option Int) :=
  r.map (fun p => if p.1 ∈ glacierClassCols ∧ p.2 = none then (p.1, some 99) else p)

/-- Line 35: select the six documented columns, in order. -/
def projectGlacier (r : List (String × Option Int)) : List (String × Option Int) :=
  glacierKeptCols.map (fun c => (c, colVal r c))

/-- Lines 17-36, `load_glacier(glacier)`: drop duplicate WGMS_IDs keeping
the first occurrence, drop rows missing WGMS_ID, LATITUDE or LONGITUDE, fill
the three classification columns with the sentinel 99, and keep exactly the
six documented columns. -/
def load_glacier (glacier : List (List (String × Option Int))) :
    List (List (String × Option Int)) :=
  ((dropDupById glacier).filter (fun r =>
    (colVal r "WGMS_ID").isSome && (colVal r "LATITUDE").isSome &&
      (colVal r "LONGITUDE").isSome)).map (fun r => projectGlacier (fillClass r))

/-- Looking up one of the kept columns in a projected row reads the source
row's value for it. -/
theorem colVal_projectGlacier {r : List (String × Option Int)} {c : String}
    (hc : c ∈ glacierKeptCols) : colVal (projectGlacier r) c = colVal r c := by
  rw [projectGlacier]
  have hgen : ∀ (cs : List String), c ∈ cs →
      List.lookup c (cs.map (fun c2 => (c2, colVal r c2))) = some (colVal r c) := by
    intro cs hcs
    induction cs with
    | nil => cases hcs
    | cons c2 cs ih =>
      rw [List.map_cons, List.lookup_cons]
      by_cases hcc : c = c2
      · subst hcc
        simp
      · have : (c == c2) = false := beq_eq_false_iff_ne.2 hcc
        rw [this]
        rcases List.mem_cons.1 hcs with h1 | h1
        · exact absurd h1 hcc
        · exact ih h1
  rw [colVal, hgen glacierKeptCols hc]
  rfl

/-- `fillna` does not change the value of a column outside its target set. -/
theorem colVal_fillClass_of_not_mem {r : List (String × Option Int)} {c : String}
    (hc : c ∉ glacierClassCols) : colVal (fillClass r) c = colVal r c := by
  induction r with
  | nil => rfl
  | cons p r ih =>
    obtain ⟨pn, pv⟩ := p
    rw [fillClass, List.map_cons]
    rw [fillClass] at ih
    by_cases hcp : c = pn
    · subst hcp
      have hfill : ¬(((c, pv).1 ∈ glacierClassCols) ∧ (c, pv).2 = none) :=
        fun h => hc h.1
      rw [if_neg hfill]
      rw [colVal, colVal]
      simp [List.lookup]
    · have hbeq : (c == pn) = false := beq_eq_false_iff_ne.2 hcp
      by_cases hfill : ((pn, pv).1 ∈ glacierClassCols) ∧ (pn, pv).2 = none
      · rw [if_pos hfill]
        rw [colVal, colVal]
        simp only [List.lookup, hbeq]
        exact ih
      · rw [if_neg hfill]
        rw [colVal, colVal]
        simp only [List.lookup, hbeq]
        exact ih

/-- After `fillna`, a classification column the row lists is non-missing. -/
theorem colVal_fillClass_isSome {r : List (String × Option Int)} {c : String}
    (hc : c ∈ glacierClassCols) (hmem : c ∈ r.map Prod.fst) :
    (colVal (fillClass r) c).isSome = true := by
  induction r with
  | nil => cases hmem
  | cons p r ih =>
    obtain ⟨pn, pv⟩ := p
    rw [fillClass, List.map_cons]
    rw [fillClass] at ih
    by_cases hcp : c = pn
    · subst hcp
      by_cases hfill : (((c, pv).1 ∈ glacierClassCols) ∧ (c, pv).2 = none)
      · rw [if_pos hfill]
        rw [colVal]
        simp [List.lookup]
      · rw [if_neg hfill]
        have hsome : pv ≠ none := by
          intro hcon
          exact hfill ⟨hc, hcon⟩
        rcases Option.ne_none_iff_exists.1 hsome with ⟨v, hv⟩
        rw [colVal]
        simp [List.lookup, ← hv]
    · have hbeq : (c == pn) = false := beq_eq_false_iff_ne.2 hcp
      have hmem2 : c ∈ r.map Prod.fst := by
        rw [List.map_cons, List.mem_cons] at hmem
        rcases hmem with h1 | h1
        · exact absurd h1 hcp
        · exact h1
      have ih2 := ih hmem2
      by_cases hfill : (((pn, pv).1 ∈ glacierClassCols) ∧ (pn, pv).2 = none)
      · rw [if_pos hfill, colVal]
        simp only [List.lookup, hbeq]
        rw [colVal] at ih2
        exact ih2
      · rw [if_neg hfill, colVal]
        simp only [List.lookup, hbeq]
        rw [colVal] at ih2
        exact ih2

/-- Deduplicated rows all come from the input table. -/
theorem dropDupById_subset (l : List (List (String × Option Int))) :
    ∀ r ∈ dropDupById l, r ∈ l := by
  induction l using dropDupById.induct with
  | case1 =>
    intro r hr
    simp [dropDupById] at hr
  | case2 r0 rest ih =>
    intro r hr
    rw [dropDupById] at hr
    rcases List.mem_cons.1 hr with h1 | h1
    · exact h1 ▸ List.mem_cons_self _ _
    · have h2 := ih r h1
      exact List.mem_cons_of_mem _ (List.mem_filter.1 h2).1

/-- Deduplication leaves at most one row per WGMS_ID value. -/
theorem dropDupById_pairwise (l : List (List (String × Option Int))) :
    (dropDupById l).Pairwise
      (fun r s => colVal r "WGMS_ID" ≠ colVal s "WGMS_ID") := by
  induction l using dropDupById.induct with
  | case1 => simp [dropDupById]
  | case2 r0 rest ih =>
    rw [dropDupById]
    refine List.Pairwise.cons ?_ ih
    intro s hs
    have h2 := dropDupById_subset _ s hs
    rcases List.mem_filter.1 h2 with ⟨-, hpred⟩
    rw [Bool.not_eq_true', beq_eq_false_iff_ne] at hpred
    exact fun hcon => hpred hcon.symm

/-- C9: for every raw glacier table whose rows list the three classification
columns, `load_glacier` emits rows with exactly the six documented columns,
no missing entity identifier, latitude or longitude, no missing value in the
three classification columns (each filled with the sentinel 99), and at most
one row per entity identifier. -/
theorem load_glacier_claim (glacier : List (List (String × Option Int)))
    (hcols : ∀ r ∈ glacier, ∀ c ∈ glacierClassCols, c ∈ r.map Prod.fst) :
    (∀ r ∈ load_glacier glacier, r.map Prod.fst = glacierKeptCols) ∧
    (∀ r ∈ load_glacier glacier, ∀ c ∈ glacierRequiredCols,
      (colVal r c).isSome = true) ∧
    (∀ r ∈ load_glacier glacier, ∀ c ∈ glacierClassCols,
      (colVal r c).isSome = true) ∧
    (load_glacier glacier).Pairwise
      (fun r s => colVal r "WGMS_ID" ≠ colVal s "WGMS_ID") := by
  refine ⟨?_, ?_, ?_, ?_⟩
  · intro r hr
    rcases List.mem_map.1 hr with ⟨r0, -, hproj⟩
    rw [← hproj, projectGlacier, List.map_map]
    exact List.map_id _
  · intro r hr c hc
    rcases List.mem_map.1 hr with ⟨r0, hr0, hproj⟩
    rcases List.mem_filter.1 hr0 with ⟨-, hpred⟩
    simp only [Bool.and_eq_true] at hpred
    have hc2 : c = "WGMS_ID" ∨ c = "LATITUDE" ∨ c = "LONGITUDE" := by
      simpa [glacierRequiredCols] using hc
    rcases hc2 with rfl | rfl | rfl
    · rw [← hproj, colVal_projectGlacier (by decide),
        colVal_fillClass_of_not_mem (by decide)]
      exact hpred.1.1
    · rw [← hproj, colVal_projectGlacier (by decide),
        colVal_fillClass_of_not_mem (by decide)]
      exact hpred.1.2
    · rw [← hproj, colVal_projectGlacier (by decide),
        colVal_fillClass_of_not_mem (by decide)]
      exact hpred.2
  · intro r hr c hc
    rcases List.mem_map.1 hr with ⟨r0, hr0, hproj⟩
    rcases List.mem_filter.1 hr0 with ⟨hr0dd, -⟩
    have hr0g : r0 ∈ glacier := dropDupById_subset _ r0 hr0dd
    have hckept : c ∈ glacierKeptCols := by
      have hc2 : c = "PRIM_CLASSIFIC" ∨ c = "FORM" ∨ c = "FRONTAL_CHARS" := by
        simpa [glacierClassCols] using hc
      rcases hc2 with rfl | rfl | rfl <;> decide
    rw [← hproj, colVal_projectGlacier hckept]
    exact colVal_fillClass_isSome hc (hcols r0 hr0g c hc)
  · rw [load_glacier, List.pairwise_map]
    have hpw := List.Pairwise.sublist
      (@List.filter_sublist _ (fun r => (colVal r "WGMS_ID").isSome &&
        (colVal r "LATITUDE").isSome && (colVal r "LONGITUDE").isSome)
        (dropDupById glacier))
      (dropDupById_pairwise glacier)
    refine hpw.imp ?_
    intro a b hab
    rw [colVal_projectGlacier (by decide), colVal_projectGlacier (by decide),
      colVal_fillClass_of_not_mem (by decide), colVal_fillClass_of_not_mem (by decide)]
    exact hab

/-- A concrete raw glacier table used by the loader witness: an extra raw
column, a missing classification value, and a row with a missing
identifier. -/
def glacierWitness : List (List (String × Option Int)) :=
  [[("POLITICAL_UNIT", some 10), ("WGMS_ID", some 1), ("LATITUDE", some 46),
    ("LONGITUDE", some 8), ("PRIM_CLASSIFIC", none), ("FORM", some 1),
    ("FRONTAL_CHARS", some 2)],
   [("WGMS_ID", none), ("LATITUDE", some 1), ("LONGITUDE", some 1),
    ("PRIM_CLASSIFIC", some 1), ("FORM", some 1), ("FRONTAL_CHARS", some 1)]]

/-- Witness for C9 at a concrete raw glacier table. -/
theorem load_glacier_claim_witness :
    (∀ r ∈ load_glacier glacierWitness, r.map Prod.fst = glacierKeptCols) ∧
    (∀ r ∈ load_glacier glacierWitness, ∀ c ∈ glacierClassCols,
      (colVal r c).isSome = true) := by
  have h := load_glacier_claim glacierWitness (by decide)
  exact ⟨h.1, h.2.2.1⟩

/-- A raw glacier table with the same entity twice: first with a missing
latitude, then with a complete position. -/
def glacierDupInput : List (List (String × Option Int)) :=
  [[("WGMS_ID", some 1), ("LATITUDE", none), ("LONGITUDE", some 8),
    ("PRIM_CLASSIFIC", some 4), ("FORM", some 1), ("FRONTAL_CHARS", some 2)],
   [("WGMS_ID", some 1), ("LATITUDE", some 46), ("LONGITUDE", some 8),
    ("PRIM_CLASSIFIC", some 4), ("FORM", some 1), ("FRONTAL_CHARS", some 2)]]

/-! ### Mutation of stage inputs -/

/-- The contents of `load_glacier`'s argument after the call: every pandas
operation in it (drop_duplicates, dropna, fillna, projection) returns a new
frame, leaving the input unchanged. -/
def load_glacier_input_after (glacier : List (List (String × Option Int))) :
    List (List (String × Option Int)) := glacier

/-- The contents of `load_change`'s argument after the call (no in-place
operation). -/
def load_change_input_after (change : List RawObsRow) : List RawObsRow := change

/-- The contents of `load_state`'s argument after the call (no in-place
operation). -/
def load_state_input_after (state : List RawObsRow) : List RawObsRow := state

/-- The contents of `load_mass_balance`'s argument after the call (no
in-place operation). -/
def load_mass_balance_input_after (mb : List RawObsRow) : List RawObsRow := mb

/-- The contents of `merge_data`'s four arguments after the call (merge
returns new frames). -/
def merge_data_input_after (g : List GlacierRow) (c : List CumRow) (s : List ObsRow)
    (b : List CumRow) : List GlacierRow × List CumRow × List ObsRow × List CumRow :=
  (g, c, s, b)

/-- C7 counterexample: after `to_timeseries` returns, the caller's merged
table has lost its all-feature-missing row — the `inplace=True` dropna of
line 158 mutated the argument, so it is false that every pipeline stage
leaves its input unchanged. -/
theorem stage_purity_counterexample :
    to_timeseries_input_after [⟨7, 2001, [none]⟩] ≠ [⟨7, 2001, [none]⟩] := by
  decide

/-- C7 (amended): every stage except `to_timeseries` leaves its input tables
unchanged, producing new tables instead; `to_timeseries` however mutates its
argument through the in-place dropna of line 158, leaving the caller's table
equal to the dropna result — its input survives unchanged exactly when no
row has all feature values missing. -/
theorem stage_purity_claim (glacier : List (List (String × Option Int)))
    (change state mb : List RawObsRow) (g : List GlacierRow) (c : List CumRow)
    (s : List ObsRow) (b : List CumRow) (m : List MRow) :
    load_glacier_input_after glacier = glacier ∧
    load_change_input_after change = change ∧
    load_state_input_after state = state ∧
    load_mass_balance_input_after mb = mb ∧
    merge_data_input_after g c s b = (g, c, s, b) ∧
    to_timeseries_input_after m = dropnaFeats m ∧
    (to_timeseries_input_after m = m ↔
      ∀ r ∈ m, r.feats.any (fun v => v.isSome) = true) := by
  refine ⟨rfl, rfl, rfl, rfl, rfl, rfl, ?_⟩
  exact List.filter_eq_self

/-- Witness for C7: a merged table with no all-feature-missing row survives
the call unchanged. -/
theorem stage_purity_claim_witness :
    to_timeseries_input_after [⟨1, 2000, [some 5]⟩] = [⟨1, 2000, [some 5]⟩] :=
  (stage_purity_claim [] [] [] [] [] [] [] [] [⟨1, 2000, [some 5]⟩]).2.2.2.2.2.2.mpr
    (by decide)

/-- C10: because `load_glacier` removes duplicate entity identifiers before
dropping rows with missing position, entity 1 — whose first row lacks the
latitude while its second row carries a complete position — is absent from
the output entirely. -/
theorem load_glacier_dedup_before_dropna_claim :
    (∃ r ∈ glacierDupInput, colVal r "WGMS_ID" = some 1 ∧
      (colVal r "LATITUDE").isSome = true ∧ (colVal r "LONGITUDE").isSome = true) ∧
    load_glacier glacierDupInput = [] := by
  constructor
  · decide
  · rw [glacierDupInput, load_glacier, dropDupById]
    have hfil : List.filter
        (fun s => !(colVal s "WGMS_ID" ==
          colVal [("WGMS_ID", some 1), ("LATITUDE", none), ("LONGITUDE", some 8),
            ("PRIM_CLASSIFIC", some 4), ("FORM", some 1), ("FRONTAL_CHARS", some 2)]
            "WGMS_ID"))
        [[("WGMS_ID", some 1), ("LATITUDE", some 46), ("LONGITUDE", some 8),
          ("PRIM_CLASSIFIC", some 4), ("FORM", some 1), ("FRONTAL_CHARS", some 2)]] = [] := by
      decide
    rw [hfil, dropDupById]
    rfl

end GlacierClustering
